import Mathlib

/-!
# quiz.js : a shallow embedding

The quiz browser of `quiz.js` is a pipeline load → normalise → filter → render.
JavaScript strings are embedded as lists of characters, the loosely typed JSON
field values as `JSVal`, the module state (`allQuestions`, `filteredQuestions`)
as explicit values, and the part of the DOM the click handler reads as a list of
cards, each a list of elements in document order.

The host functions `toLowerCase`, `toUpperCase` and `localeCompare` depend on the
Unicode tables of the engine.  They are arguments of the definitions that call
them; `asciiLower` and `asciiUpper` are the instances that agree with the engine
on ASCII text and are used where a concrete string is evaluated.
-/

namespace Quiz

/-- A JavaScript string, as the list of its characters. -/
abbrev Str := List Char

/-! ## JavaScript values and coercions -/

/-- A field value of a parsed JSON record.  `undefined` is a missing property,
`num` an integer valued number, `composite s` an array or object whose
`toString()` is `s`. -/
inductive JSVal where
  | undefined
  | null
  | bool (b : Bool)
  | num (n : Int)
  | str (s : Str)
  | composite (s : Str)
  deriving DecidableEq, Repr

/-- Truthiness, as used by `&&`, `||` and `filter(Boolean)`. -/
def truthy : JSVal → Bool
  | .undefined => false
  | .null => false
  | .bool b => b
  | .num n => n != 0
  | .str s => !s.isEmpty
  | .composite _ => true

/-- Decimal rendering of an integer valued number: `Number.prototype.toString`
for the integers a double holds exactly and prints in full, those of magnitude
up to `2 ^ 53` (beyond them the engine prints the shortest digits that round
back, and exponent form from `10 ^ 21` on). -/
def intToString (n : Int) : Str :=
  if n < 0 then '-' :: Nat.toDigits 10 n.natAbs else Nat.toDigits 10 n.natAbs

/-- The result of `value.toString()`.  The source only calls it on values that
are neither `null` nor `undefined`. -/
def jsToString : JSVal → Str
  | .undefined => []
  | .null => []
  | .bool b => if b then "true".toList else "false".toList
  | .num n => intToString n
  | .str s => s
  | .composite s => s

/-- White space and line terminators, the characters removed by `trim` and
skipped by `Number` around a numeric literal. -/
def isWhiteSpace (c : Char) : Bool :=
  let n := c.toNat
  n == 0x09 || n == 0x0A || n == 0x0B || n == 0x0C || n == 0x0D || n == 0x20
    || n == 0xA0 || n == 0x1680 || (0x2000 ≤ n && n ≤ 0x200A) || n == 0x2028
    || n == 0x2029 || n == 0x202F || n == 0x205F || n == 0x3000 || n == 0xFEFF

/-- The method `String.prototype.trim`. -/
def trim (s : Str) : Str :=
  (s.dropWhile isWhiteSpace).rdropWhile isWhiteSpace

/-- The idiom `(v || "").toString().trim()`. -/
def orEmptyTrim (v : JSVal) : Str :=
  trim (if truthy v then jsToString v else [])

/-! ## `Number(value)` -/

/-- The value of `Number(value)`: not a number, an infinity, or the exact decimal
`± m · 10 ^ e` of the literal, before it is rounded to a double. -/
inductive JSNumber where
  | nan
  | inf (neg : Bool)
  | dec (neg : Bool) (m : Nat) (e : Int)
  deriving DecidableEq, Repr

/-- The production `DecimalDigit`. -/
def isDecDigit (c : Char) : Bool := '0' ≤ c && c ≤ '9'

/-- The value of a hexadecimal digit. -/
def hexDigitVal (c : Char) : Option Nat :=
  if '0' ≤ c && c ≤ '9' then some (c.toNat - 48)
  else if 'a' ≤ c && c ≤ 'f' then some (c.toNat - 87)
  else if 'A' ≤ c && c ≤ 'F' then some (c.toNat - 55)
  else none

/-- Value of a sequence of decimal digits. -/
def digitsToNat (ds : Str) : Nat :=
  ds.foldl (fun a c => 10 * a + (c.toNat - 48)) 0

/-- Value of a non-empty sequence of digits in base `b`, `none` when a character
is not a digit of that base. -/
def radixToNat (b : Nat) (ds : Str) : Option Nat :=
  if ds.isEmpty then none
  else ds.foldl (fun a c =>
    match a, hexDigitVal c with
    | some v, some d => if d < b then some (b * v + d) else none
    | _, _ => none) (some 0)

/-- The production `ExponentPart` (optional): the text after the mantissa. -/
def parseExponent : Str → Option Int
  | [] => some 0
  | c :: rest =>
    if c == 'e' || c == 'E' then
      match rest with
      | '+' :: ds => if !ds.isEmpty && ds.all isDecDigit then some (digitsToNat ds) else none
      | '-' :: ds => if !ds.isEmpty && ds.all isDecDigit then some (-(digitsToNat ds : Int)) else none
      | ds => if !ds.isEmpty && ds.all isDecDigit then some (digitsToNat ds) else none
    else none

/-- The production `StrUnsignedDecimalLiteral`. -/
def parseUnsignedDecimal (neg : Bool) (s : Str) : JSNumber :=
  if s = "Infinity".toList then .inf neg
  else
    let ip := s.takeWhile isDecDigit
    let r1 := s.dropWhile isDecDigit
    let fp := match r1 with
      | '.' :: t => t.takeWhile isDecDigit
      | _ => []
    let r2 := match r1 with
      | '.' :: t => t.dropWhile isDecDigit
      | _ => r1
    if ip.isEmpty && fp.isEmpty then .nan
    else match parseExponent r2 with
      | some x => .dec neg (digitsToNat (ip ++ fp)) (x - fp.length)
      | none => .nan

/-- The production `StrNumericLiteral`, on a string without surrounding white
space. -/
def parseNumericLiteral (s : Str) : JSNumber :=
  match s with
  | [] => .dec false 0 0
  | '0' :: 'x' :: ds => (radixToNat 16 ds).elim .nan (fun v => .dec false v 0)
  | '0' :: 'X' :: ds => (radixToNat 16 ds).elim .nan (fun v => .dec false v 0)
  | '0' :: 'o' :: ds => (radixToNat 8 ds).elim .nan (fun v => .dec false v 0)
  | '0' :: 'O' :: ds => (radixToNat 8 ds).elim .nan (fun v => .dec false v 0)
  | '0' :: 'b' :: ds => (radixToNat 2 ds).elim .nan (fun v => .dec false v 0)
  | '0' :: 'B' :: ds => (radixToNat 2 ds).elim .nan (fun v => .dec false v 0)
  | '+' :: ds => parseUnsignedDecimal false ds
  | '-' :: ds => parseUnsignedDecimal true ds
  | ds => parseUnsignedDecimal false ds

/-- The abstract operation `StringToNumber`. -/
def stringToNumber (s : Str) : JSNumber := parseNumericLiteral (trim s)

/-- The call `Number(value)`. -/
def toNumber : JSVal → JSNumber
  | .undefined => .nan
  | .null => .dec false 0 0
  | .bool b => .dec false (if b then 1 else 0) 0
  | .num n => .dec (decide (n < 0)) n.natAbs 0
  | .str s => stringToNumber s
  | .composite s => stringToNumber s

/-- Decides `m · 10 ^ e ≤ a / b`. -/
def scaledLe (m : Nat) (e : Int) (a b : Nat) : Bool :=
  if 0 ≤ e then decide (m * 10 ^ e.toNat * b ≤ a) else decide (m * b ≤ a * 10 ^ (-e).toNat)

/-- Decides `a / b ≤ m · 10 ^ e`. -/
def scaledGe (m : Nat) (e : Int) (a b : Nat) : Bool :=
  if 0 ≤ e then decide (a ≤ m * 10 ^ e.toNat * b) else decide (a * 10 ^ (-e).toNat ≤ m * b)

/-- The test `n <= 1` on the double nearest to the number: the doubles next to 1
are `1` and `1 + 2⁻⁵²`, and the tie `1 + 2⁻⁵³` rounds to `1`. -/
def JSNumber.leOne : JSNumber → Bool
  | .nan => false
  | .inf neg => neg
  | .dec neg m e => neg || scaledLe m e (2 ^ 53 + 1) (2 ^ 53)

/-- The test `n === 2` on the double nearest to the number: exactly the reals of
`[2 - 2⁻⁵³, 2 + 2⁻⁵²]` round to `2`. -/
def JSNumber.eqTwo : JSNumber → Bool
  | .dec false m e => scaledGe m e (2 ^ 54 - 1) (2 ^ 53) && scaledLe m e (2 ^ 53 + 1) (2 ^ 52)
  | _ => false

/-- The test `n >= 3` on the double nearest to the number: the reals from
`3 - 2⁻⁵²` on round to `3` or more. -/
def JSNumber.geThree : JSNumber → Bool
  | .inf neg => !neg
  | .dec false m e => scaledGe m e (3 * 2 ^ 52 - 1) (2 ^ 52)
  | _ => false

/-- The test `Number.isNaN(n)`. -/
def JSNumber.isNaN : JSNumber → Bool
  | .nan => true
  | _ => false

/-! ## Record Normalizer -/

/-- The function `toDifficultyLabel`. -/
def toDifficultyLabel (value : JSVal) : Str :=
  if value = .null ∨ value = .undefined ∨ value = .str [] then []
  else
    let n := toNumber value
    if n.isNaN then trim (jsToString value)
    else if n.leOne then "Beginner".toList
    else if n.eqTwo then "Intermediate".toList
    else if n.geThree then "Advanced".toList
    else trim (jsToString value)

/-- A raw record of `questions.json`, one value per key the program reads. -/
structure RawRecord where
  id : JSVal := .undefined
  category : JSVal := .undefined
  difficulty : JSVal := .undefined
  type : JSVal := .undefined
  stem : JSVal := .undefined
  option_A : JSVal := .undefined
  option_B : JSVal := .undefined
  option_C : JSVal := .undefined
  option_D : JSVal := .undefined
  correct_option : JSVal := .undefined
  lexicon_terms : JSVal := .undefined
  role_focus : JSVal := .undefined
  notes_for_author : JSVal := .undefined
  deriving DecidableEq, Repr

/-- An element of the loaded array: a record, or a value that is not an object
with properties (`null`, a number, a string, a boolean, an array). -/
inductive RawItem where
  | notRecord
  | record (r : RawRecord)
  deriving DecidableEq, Repr

/-- A normalised question.  The properties copied by the spread `...q` that the
program never reads are left out. -/
structure Question where
  id : JSVal
  category : Str
  difficulty : Str
  type : Str
  stem : Str
  option_A : Str
  option_B : Str
  option_C : Str
  option_D : Str
  correct_option : Str
  lexicon_terms : Str
  role_focus : Str
  notes_for_author : Str
  deriving DecidableEq, Repr

/-- The predicate of `.filter((q) => q && q.stem)`, giving the record kept. -/
def keepRecord : RawItem → Option RawRecord
  | .notRecord => none
  | .record r => if truthy r.stem then some r else none

/-- The template literal of the fallback id, for the index `idx` of the map. -/
def fallbackId (idx : Nat) : Str := "Q_".toList ++ Nat.toDigits 10 (idx + 1)

/-- The callback of `.map((q, idx) => ...)`. -/
def normalizeRecord (q : RawRecord) (idx : Nat) : Question where
  id := if truthy q.id then q.id else .str (fallbackId idx)
  category := orEmptyTrim q.category
  difficulty := toDifficultyLabel q.difficulty
  type := orEmptyTrim q.type
  stem := trim (jsToString q.stem)
  option_A := orEmptyTrim q.option_A
  option_B := orEmptyTrim q.option_B
  option_C := orEmptyTrim q.option_C
  option_D := orEmptyTrim q.option_D
  correct_option := orEmptyTrim q.correct_option
  lexicon_terms := orEmptyTrim q.lexicon_terms
  role_focus := orEmptyTrim q.role_focus
  notes_for_author := orEmptyTrim q.notes_for_author

/-- The `.map` over the kept records, `idx` being the index of the first. -/
def mapFrom (idx : Nat) : List RawRecord → List Question
  | [] => []
  | q :: rest => normalizeRecord q idx :: mapFrom (idx + 1) rest

/-- The normalisation of `fetchQuestions`: `.filter(...).map(...)`. -/
def normalize (data : List RawItem) : List Question :=
  mapFrom 0 (data.filterMap keepRecord)

/-- The module state. -/
structure Store where
  allQuestions : List Question
  filteredQuestions : List Question
  deriving DecidableEq, Repr

/-- The function `fetchQuestions`.  `none` is a load that throws (the request
fails, the body is not JSON, the value is not an array); a `null` body is the
empty array. -/
def fetchQuestions (data : Option (List RawItem)) : Store :=
  match data with
  | some xs => { allQuestions := normalize xs, filteredQuestions := normalize xs }
  | none => { allQuestions := [], filteredQuestions := [] }

/-! ## Facet Indexer -/

/-- The keys of a normalised question. -/
inductive Field where
  | id | category | difficulty | type | stem
  | option_A | option_B | option_C | option_D
  | correct_option | lexicon_terms | role_focus | notes_for_author
  deriving DecidableEq, Repr

/-- The property access `item[key]`. -/
def getProp (item : Question) : Field → JSVal
  | .id => item.id
  | .category => .str item.category
  | .difficulty => .str item.difficulty
  | .type => .str item.type
  | .stem => .str item.stem
  | .option_A => .str item.option_A
  | .option_B => .str item.option_B
  | .option_C => .str item.option_C
  | .option_D => .str item.option_D
  | .correct_option => .str item.correct_option
  | .lexicon_terms => .str item.lexicon_terms
  | .role_focus => .str item.role_focus
  | .notes_for_author => .str item.notes_for_author

/-- The method `Set.prototype.add` on a set kept in insertion order. -/
def setAdd (set : List Str) (val : Str) : List Str :=
  if val ∈ set then set else set ++ [val]

/-- The `forEach` of `getUniqueValues`, from the set built so far. -/
def collectValues (key : Field) (set : List Str) (list : List Question) : List Str :=
  list.foldl (fun set item =>
    let val := orEmptyTrim (getProp item key)
    if !val.isEmpty then setAdd set val else set) set

/-- The function `getUniqueValues`.  `localeCompare a b` is the sign of
`a.localeCompare(b)`; the sort is the stable sort by that comparator. -/
def getUniqueValues (localeCompare : Str → Str → Int) (list : List Question)
    (key : Field) : List Str :=
  (collectValues key [] list).mergeSort (fun a b => decide (localeCompare a b ≤ 0))

/-! ## Filter Engine -/

/-- The values of the four filter controls, `none` for a control that is absent
from the page. -/
structure Controls where
  category : Option Str
  role : Option Str
  difficulty : Option Str
  search : Option Str
  deriving DecidableEq, Repr

/-- The method `String.prototype.includes`. -/
def includes : Str → Str → Bool
  | [], needle => needle.isEmpty
  | c :: hay, needle => needle.isPrefixOf (c :: hay) || includes hay needle

/-- The text searched, before it is lower-cased: `[...].filter(Boolean).join(" ")`. -/
def searchBlob (q : Question) : Str :=
  List.intercalate " ".toList
    ([q.stem, q.lexicon_terms, q.category, q.role_focus, q.type].filter (fun s => !s.isEmpty))

/-- The constant `searchable` of the filter callback. -/
def searchable (toLowerCase : Str → Str) (q : Question) : Str :=
  toLowerCase (searchBlob q)

/-- The callback of `allQuestions.filter`, for the values read from the
controls. -/
def passesFilters (toLowerCase : Str → Str) (category role difficulty search : Str)
    (q : Question) : Bool :=
  if !category.isEmpty && q.category != category then false
  else if !role.isEmpty && q.role_focus != role then false
  else if !difficulty.isEmpty && q.difficulty != difficulty then false
  else if !search.isEmpty then
    if !includes (searchable toLowerCase q) search then false else true
  else true

/-- The text `search` computed from the search control. -/
def searchOf (toLowerCase : Str → Str) (c : Controls) : Str :=
  match c.search with
  | some v => trim (toLowerCase v)
  | none => []

/-- The filter pass of `applyFilters`; `renderQuestions` then draws the
result. -/
def applyFilters (toLowerCase : Str → Str) (c : Controls) (st : Store) : Store :=
  { st with
    filteredQuestions := st.allQuestions.filter
      (passesFilters toLowerCase (c.category.getD []) (c.role.getD []) (c.difficulty.getD [])
        (searchOf toLowerCase c)) }

/-! ## View Renderer -/

/-- The function `escapeHtml`'s building block: `.replace(/c/g, rep)` for a
single character `c`. -/
def replaceAll (c : Char) (rep : Str) (s : Str) : Str :=
  s.flatMap (fun x => if x = c then rep else [x])

/-- The function `escapeHtml`. -/
def escapeHtml (str : Str) : Str :=
  replaceAll '>' "&gt;".toList (replaceAll '<' "&lt;".toList (replaceAll '&' "&amp;".toList str))

/-- The constant `correctLabel` of `renderQuestions`. -/
def correctLabel (toUpperCase : Str → Str) (q : Question) : Str :=
  if !q.correct_option.isEmpty then toUpperCase (trim q.correct_option) else []

/-- The lookup `map[correctLabel]`, `undefined` being the empty string here since
the result is only used through `|| ""`. -/
def optionLookup (q : Question) (label : Str) : Str :=
  if label = "A".toList then q.option_A
  else if label = "B".toList then q.option_B
  else if label = "C".toList then q.option_C
  else if label = "D".toList then q.option_D
  else []

/-- The variable `correctText` of `renderQuestions`. -/
def correctText (toUpperCase : Str → Str) (q : Question) : Str :=
  if !(correctLabel toUpperCase q).isEmpty then optionLookup q (correctLabel toUpperCase q)
  else []

/-- The text put after `Correct:` in the answer panel, the two interpolations
`${...} ${...}` of the first line of the template. -/
def correctLine (toUpperCase : Str → Str) (q : Question) : Str :=
  (if !(correctLabel toUpperCase q).isEmpty then
      correctLabel toUpperCase q ++
        (if !(correctText toUpperCase q).isEmpty then ".".toList else [])
    else "N/A".toList)
  ++ " ".toList ++ correctText toUpperCase q

/-- The author note of the answer panel, the third interpolation. -/
def authorNote (q : Question) : Str :=
  if !q.notes_for_author.isEmpty then
    "<div class=\"mt-1 text-[11px] text-emerald-900/80\"><span class=\"font-semibold\">Author note:</span> ".toList
      ++ escapeHtml q.notes_for_author ++ "</div>".toList
  else []

/-- The template literal assigned to `answerBox.innerHTML`. -/
def answerBoxHtml (toUpperCase : Str → Str) (q : Question) : Str :=
  "\n      <div><span class=\"font-semibold\">Correct:</span> ".toList
    ++ correctLine toUpperCase q ++ "</div>\n      ".toList ++ authorNote q ++ "\n    ".toList

/-- An element created by the script: its tag, its class list, the text or
markup assigned to it, and `dataset.questionIndex`. -/
structure Elem where
  tag : Str
  classList : List Str
  content : Str := []
  questionIndex : Option Str := none
  deriving DecidableEq, Repr

/-- A card: the `article` element, given by its descendants in document
order.  The elements parsed from the `innerHTML` of the answer panel are its
children and come after it; they are kept as its `content`. -/
structure Card where
  descendants : List Elem
  deriving DecidableEq, Repr

/-- The tokens of a `className`. -/
def classes (l : List String) : List Str := l.map String.toList

/-- The function `createChip`. -/
def createChip (text : Str) (extraClasses : List String) : Elem :=
  { tag := "span".toList,
    classList := classes ["inline-flex", "items-center", "rounded-full", "px-2.5", "py-0.5",
      "text-[11px]", "font-medium", "border", "border-slate-100"] ++ classes extraClasses,
    content := text }

/-- The chips of the header, each left out when its text is empty. -/
def chips (q : Question) : List Elem :=
  (if !q.category.isEmpty then [createChip q.category ["bg-sky-50", "text-sky-700"]] else [])
  ++ (if !q.role_focus.isEmpty then
        [createChip q.role_focus ["bg-emerald-50", "text-emerald-700"]] else [])
  ++ (if !q.difficulty.isEmpty then
        [createChip q.difficulty ["bg-amber-50", "text-amber-700"]] else [])

/-- The options with text: `.filter((o) => o.text && o.text.trim().length > 0)`. -/
def shownOptions (q : Question) : List (Str × Str) :=
  [("A".toList, q.option_A), ("B".toList, q.option_B), ("C".toList, q.option_C),
    ("D".toList, q.option_D)].filter (fun o => !o.2.isEmpty && decide (0 < (trim o.2).length))

/-- The `li` of one option with its two `span`s. -/
def optionItem (opt : Str × Str) : List Elem :=
  [ { tag := "li".toList, classList := classes ["flex", "gap-2"] },
    { tag := "span".toList,
      classList := classes ["mt-0.5", "inline-flex", "h-5", "w-5", "items-center",
        "justify-center", "rounded-full", "border", "border-slate-300", "text-[10px]",
        "font-semibold", "text-slate-600"],
      content := opt.1 },
    { tag := "span".toList, classList := [], content := opt.2 } ]

/-- The options list, left out when no option has text. -/
def optionsList (q : Question) : List Elem :=
  if (shownOptions q).isEmpty then []
  else { tag := "ul".toList, classList := classes ["mt-3", "space-y-1", "text-sm",
          "text-slate-800"] } :: (shownOptions q).flatMap optionItem

/-- The button `showBtn`. -/
def showBtn (idx : Nat) : Elem :=
  { tag := "button".toList,
    classList := classes ["text-xs", "font-semibold", "text-sky-700", "hover:text-sky-900",
      "hover:underline"],
    content := "Show answer".toList,
    questionIndex := some (Nat.toDigits 10 idx) }

/-- The element `answerBox`. -/
def answerBox (toUpperCase : Str → Str) (q : Question) : Elem :=
  { tag := "div".toList,
    classList := classes ["mt-2", "hidden", "text-xs", "leading-relaxed", "text-emerald-800"],
    content := answerBoxHtml toUpperCase q }

/-- The elements of a card that come before the reveal button. -/
def cardHead (q : Question) : List Elem :=
  [ { tag := "div".toList,
      classList := classes ["flex", "flex-wrap", "items-start", "justify-between", "gap-2"] },
    { tag := "div".toList, classList := classes ["text-xs", "font-mono", "text-slate-500"],
      content := jsToString q.id },
    { tag := "div".toList, classList := classes ["flex", "flex-wrap", "gap-2", "text-xs"] } ]
  ++ chips q
  ++ [ { tag := "h3".toList,
         classList := classes ["mt-3", "text-sm", "font-semibold", "text-slate-900"],
         content := q.stem } ]
  ++ (if !q.lexicon_terms.isEmpty then
        [ { tag := "div".toList, classList := classes ["mt-1", "text-xs", "text-slate-500"],
            content := "Lexicon: ".toList ++ q.lexicon_terms } ]
      else [])
  ++ optionsList q
  ++ [ { tag := "div".toList,
         classList := classes ["mt-3", "flex", "flex-wrap", "items-center", "justify-between"] } ]

/-- The body of `filteredQuestions.forEach((q, idx) => ...)`: one card. -/
def renderCard (toUpperCase : Str → Str) (q : Question) (idx : Nat) : Card :=
  { descendants := cardHead q ++ [showBtn idx, answerBox toUpperCase q] }

/-- The cards of the questions from index `idx` on. -/
def renderCardsFrom (toUpperCase : Str → Str) (idx : Nat) : List Question → List Card
  | [] => []
  | q :: rest => renderCard toUpperCase q idx :: renderCardsFrom toUpperCase (idx + 1) rest

/-- What `renderQuestions` puts on the page: the count label, the placeholder
of an empty result, and the cards. -/
structure View where
  countText : Str
  placeholder : Option Elem
  cards : List Card
  deriving DecidableEq, Repr

/-- The function `renderQuestions`, on a page that has the container and the
count label. -/
def renderQuestions (toUpperCase : Str → Str) (filteredQuestions : List Question) : View :=
  { countText := Nat.toDigits 10 filteredQuestions.length ++ " question".toList
      ++ (if filteredQuestions.length = 1 then [] else "s".toList),
    placeholder :=
      if filteredQuestions.isEmpty then
        some { tag := "div".toList,
               classList := classes ["rounded-xl", "border", "border-dashed", "border-slate-300",
                 "bg-white/60", "p-6", "text-sm", "text-slate-500"],
               content := "No questions match the current filters. Try changing or clearing filters.".toList }
      else none,
    cards := renderCardsFrom toUpperCase 0 filteredQuestions }

/-! ## Reveal control -/

/-- The selector `button[data-question-index]`. -/
def isRevealButton (e : Elem) : Bool :=
  e.tag == "button".toList && e.questionIndex.isSome

/-- The selector `div.mt-2`. -/
def isAnswerBox (e : Elem) : Bool :=
  e.tag == "div".toList && e.classList.contains "mt-2".toList

/-- The method `classList.remove`. -/
def classListRemove (cls : Str) (l : List Str) : List Str := l.filter (fun c => c != cls)

/-- The method `classList.add`. -/
def classListAdd (cls : Str) (l : List Str) : List Str :=
  if l.contains cls then l else l ++ [cls]

/-- The click handler on a target that is the descendant `ei` of the card `c`
(`card` is `target.closest("article")`). -/
def clickCard (c : Card) (ei : Nat) : Card :=
  match c.descendants[ei]? with
  | none => c
  | some target =>
    if isRevealButton target then
      match c.descendants.findIdx? isAnswerBox with
      | none => c
      | some ai =>
        match c.descendants[ai]? with
        | none => c
        | some box =>
          if box.classList.contains "hidden".toList then
            { descendants :=
                ((c.descendants.set ai
                  { box with classList := classListRemove "hidden".toList box.classList }).modify
                  (fun t => { t with content := "Hide answer".toList }) ei) }
          else
            { descendants :=
                ((c.descendants.set ai
                  { box with classList := classListAdd "hidden".toList box.classList }).modify
                  (fun t => { t with content := "Show answer".toList }) ei) }
    else c

/-- The click handler of `initGlobalEvents`, for a click whose target is the
descendant `ei` of the card `ci`. -/
def click (cards : List Card) (ci ei : Nat) : List Card :=
  cards.modify (fun c => clickCard c ei) ci

/-- The position of a card's reveal control among its descendants. -/
def controlIndex (c : Card) : Nat := c.descendants.findIdx isRevealButton

/-- One activation of the reveal control of the card `ci`. -/
def activate (cards : List Card) (ci : Nat) : List Card :=
  click cards ci ((cards[ci]?.map controlIndex).getD 0)

/-- Whether the answer panel of a card is hidden. -/
def cardHidden (c : Card) : Bool :=
  match c.descendants.find? isAnswerBox with
  | some box => box.classList.contains "hidden".toList
  | none => false

/-- The label of a card's reveal control. -/
def cardLabel (c : Card) : Option Str :=
  (c.descendants.find? isRevealButton).map (fun b => b.content)

/-! ## Instances of the host functions used on concrete ASCII text -/

/-- The method `toLowerCase` on ASCII text. -/
def asciiLower (s : Str) : Str := s.map Char.toLower

/-- The method `toUpperCase` on ASCII text. -/
def asciiUpper (s : Str) : Str := s.map Char.toUpper

/-! ## Sample inputs and the notions the theorems are stated with -/

/-- Sample records: one without id, a value that is not an object, one with an
id and an author note, one without stem. -/
def sampleData : List RawItem :=
  [ .record { stem := .str "Hash Collisions".toList, category := .str " Crypto ".toList,
              role_focus := .str "Engineer".toList, difficulty := .num 2,
              correct_option := .str "b".toList, option_A := .str "never".toList,
              option_B := .str "sometimes".toList },
    .notRecord,
    .record { id := .str "X7".toList, stem := .str "Overfitting".toList,
              category := .str "ML".toList, difficulty := .str "easy".toList,
              notes_for_author := .str "see <script>".toList },
    .record { id := .num 9, category := .str "ML".toList } ]

/-- The control values with the three facet criteria empty and the search
text `s`. -/
def searchOnly (s : Str) : Controls :=
  { category := some [], role := some [], difficulty := some [], search := some s }

/-- The question made from a record that has the five searched fields. -/
def allFields : Question :=
  normalizeRecord { stem := .str "Hash Collisions".toList, lexicon_terms := .str "digest".toList,
                    category := .str "Crypto".toList, role_focus := .str "Engineer".toList,
                    type := .str "MCQ".toList } 0

/-- The question made from a record that only has the stem `Hash`. -/
def hashOnly : Question := normalizeRecord { stem := .str "Hash".toList } 0

/-- What `escapeHtml` makes of one character. -/
def escapeChar (c : Char) : Str :=
  if c = '&' then "&amp;".toList
  else if c = '<' then "&lt;".toList
  else if c = '>' then "&gt;".toList
  else [c]

/-- Comparison of two strings by length, a comparator that is total and
transitive. -/
def lengthCompare (a b : Str) : Int := (a.length : Int) - (b.length : Int)

/-- The control values with `v` as the criterion of the facet `f` and every
other criterion empty. -/
def onlyCriterion (f : Field) (v : Str) : Controls :=
  { category := some (if f = .category then v else []),
    role := some (if f = .role_focus then v else []),
    difficulty := some (if f = .difficulty then v else []),
    search := some [] }

/-- A question whose `correct_option` is `E`. -/
def optionE : Question :=
  normalizeRecord { stem := .str "Pick one".toList, option_A := .str "first".toList,
                    option_B := .str "second".toList, correct_option := .str "E".toList } 0

/-- The ids the kept records supply: those that are truthy, which `q.id || ...`
keeps. -/
def suppliedIds (rs : List RawRecord) : List JSVal :=
  (rs.map (fun r => r.id)).filter truthy

/-- The fallback ids the map gives to the kept records without a truthy id,
`idx` being the index of the first record. -/
def assignedFallbacks (idx : Nat) : List RawRecord → List JSVal
  | [] => []
  | r :: rest =>
    if truthy r.id then assignedFallbacks (idx + 1) rest
    else .str (fallbackId idx) :: assignedFallbacks (idx + 1) rest

/-- Two records: the first without id, the second with the id `Q_1`. -/
def clashData : List RawItem :=
  [ .record { stem := .str "first".toList },
    .record { id := .str "Q_1".toList, stem := .str "second".toList } ]

/-- The clicks of a session, each given by the card and the descendant hit. -/
def runClicks (cards : List Card) (clicks : List (Nat × Nat)) : List Card :=
  clicks.foldl (fun cs t => click cs t.1 t.2) cards

/-- An element that neither selector matches. -/
def plain (e : Elem) : Bool := !isRevealButton e && !isAnswerBox e

/-- The shape every card keeps: elements that no selector matches, then the
reveal button, then the answer panel, the label of the button telling whether
the panel has the class `hidden`. -/
def CardShape (c : Card) : Prop :=
  ∃ (pre : List Elem) (btn box : Elem),
    c.descendants = pre ++ [btn, box] ∧ (∀ e ∈ pre, plain e = true) ∧
    isRevealButton btn = true ∧ isAnswerBox box = true ∧
    ((box.classList.contains "hidden".toList = true ∧ btn.content = "Show answer".toList) ∨
     (box.classList.contains "hidden".toList = false ∧ btn.content = "Hide answer".toList))

/-- Every card of the page has the shape. -/
def ShapeAt (cards : List Card) : Prop :=
  ∀ (i : Nat) (c : Card), cards[i]? = some c → CardShape c

/-! ## Lemmas on strings -/

theorem trim_idem (s : Str) : trim (trim s) = trim s := by
  unfold trim
  have h : List.dropWhile isWhiteSpace
      ((s.dropWhile isWhiteSpace).rdropWhile isWhiteSpace)
      = (s.dropWhile isWhiteSpace).rdropWhile isWhiteSpace := by
    rw [List.dropWhile_eq_self_iff]
    intro hl
    obtain ⟨t, ht⟩ := List.rdropWhile_prefix isWhiteSpace (l := s.dropWhile isWhiteSpace)
    have h2 : List.dropWhile isWhiteSpace (s.dropWhile isWhiteSpace)
        = s.dropWhile isWhiteSpace := List.dropWhile_idempotent isWhiteSpace s
    rw [List.dropWhile_eq_self_iff] at h2
    generalize hr : (s.dropWhile isWhiteSpace).rdropWhile isWhiteSpace = r at hl ht ⊢
    cases r with
    | nil => simp at hl
    | cons a r =>
      rw [← ht] at h2
      simpa using h2 (by simp)
  rw [h, List.rdropWhile_idempotent]

theorem trim_nil : trim [] = [] := by
  simp [trim]

theorem includes_iff (hay needle : Str) :
    includes hay needle = true ↔ ∃ pre post, hay = pre ++ needle ++ post := by
  induction hay with
  | nil =>
    simp only [includes, List.isEmpty_iff]
    constructor
    · intro h
      exact ⟨[], [], by simp [h]⟩
    · rintro ⟨pre, post, h⟩
      have h1 := congrArg List.length h
      simp at h1
      exact List.length_eq_zero.mp (by omega)
  | cons c hay ih =>
    simp only [includes, Bool.or_eq_true, List.isPrefixOf_iff_prefix, ih]
    constructor
    · rintro (⟨t, ht⟩ | ⟨pre, post, h⟩)
      · exact ⟨[], t, by simp [ht]⟩
      · exact ⟨c :: pre, post, by simp [h]⟩
    · rintro ⟨pre, post, h⟩
      cases pre with
      | nil => exact Or.inl ⟨post, by simpa using h.symm⟩
      | cons a pre =>
        simp only [List.cons_append, List.cons.injEq] at h
        exact Or.inr ⟨pre, post, by simpa using h.2⟩

/-! ## Filter Engine: theorems -/

theorem passesFilters_iff (toLowerCase : Str → Str) (category role difficulty search : Str)
    (q : Question) :
    passesFilters toLowerCase category role difficulty search q = true ↔
      (category = [] ∨ q.category = category) ∧ (role = [] ∨ q.role_focus = role) ∧
      (difficulty = [] ∨ q.difficulty = difficulty) ∧
      (search = [] ∨ includes (searchable toLowerCase q) search = true) := by
  unfold passesFilters
  by_cases h1 : category = [] <;> by_cases h2 : role = [] <;> by_cases h3 : difficulty = []
    <;> by_cases h4 : search = []
    <;> by_cases h5 : q.category = category <;> by_cases h6 : q.role_focus = role
    <;> by_cases h7 : q.difficulty = difficulty
    <;> simp [h1, h2, h3, h4, h5, h6, h7, List.isEmpty_iff]

/-- C1. With empty search text (the control absent or its value empty), the
filter pass of `applyFilters` returns exactly the questions of `allQuestions`, in
their order, whose category, role_focus and difficulty each equal the
corresponding criterion or face an empty criterion; it is a sublist of
`allQuestions`, and with all criteria empty it is `allQuestions` itself. -/
theorem applyFilters_facets (toLowerCase : Str → Str) (hlow : toLowerCase [] = [])
    (st : Store) (c : Controls) (hs : c.search = none ∨ c.search = some []) :
    (applyFilters toLowerCase c st).filteredQuestions
        = st.allQuestions.filter (fun q => decide (
            (c.category.getD [] = [] ∨ q.category = c.category.getD []) ∧
            (c.role.getD [] = [] ∨ q.role_focus = c.role.getD []) ∧
            (c.difficulty.getD [] = [] ∨ q.difficulty = c.difficulty.getD [])))
    ∧ ((applyFilters toLowerCase c st).filteredQuestions).Sublist st.allQuestions
    ∧ (c.category.getD [] = [] → c.role.getD [] = [] → c.difficulty.getD [] = [] →
        (applyFilters toLowerCase c st).filteredQuestions = st.allQuestions) := by
  have hsearch : searchOf toLowerCase c = [] := by
    rcases hs with h | h <;> simp [searchOf, h, hlow, trim_nil]
  have hfilter : (applyFilters toLowerCase c st).filteredQuestions
        = st.allQuestions.filter (fun q => decide (
            (c.category.getD [] = [] ∨ q.category = c.category.getD []) ∧
            (c.role.getD [] = [] ∨ q.role_focus = c.role.getD []) ∧
            (c.difficulty.getD [] = [] ∨ q.difficulty = c.difficulty.getD []))) := by
    simp only [applyFilters, hsearch]
    apply List.filter_congr
    intro q _
    rw [Bool.eq_iff_iff, passesFilters_iff]
    simp
  refine ⟨hfilter, ?_, ?_⟩
  · rw [hfilter]
    exact List.filter_sublist _
  · intro h1 h2 h3
    rw [hfilter, List.filter_eq_self]
    intro q _
    simp [h1, h2, h3]

theorem applyFilters_facets_witness :
    asciiLower [] = [] ∧
    (applyFilters asciiLower
        { category := some "ML".toList, role := none, difficulty := some [], search := some [] }
        (fetchQuestions (some sampleData))).filteredQuestions
      = (fetchQuestions (some sampleData)).allQuestions.filter (fun q => decide (
          ("ML".toList = [] ∨ q.category = "ML".toList) ∧
          (([] : Str) = [] ∨ q.role_focus = []) ∧ (([] : Str) = [] ∨ q.difficulty = []))) :=
  ⟨rfl, (applyFilters_facets asciiLower rfl (fetchQuestions (some sampleData))
    { category := some "ML".toList, role := none, difficulty := some [], search := some [] }
    (Or.inr rfl)).1⟩

/-- C2 as stated fails: with the search text of one space the question whose
searchable text is `hash` is kept, though the search text is not empty and no
space occurs in `hash`. -/
theorem search_blank_counterexample :
    ¬ (hashOnly ∈ (applyFilters asciiLower (searchOnly " ".toList)
          { allQuestions := [hashOnly], filteredQuestions := [] }).filteredQuestions
        ↔ (" ".toList = [] ∨
            ∃ pre post, asciiLower (searchBlob hashOnly)
              = pre ++ asciiLower " ".toList ++ post)) := by
  intro h
  have hk : hashOnly ∈ (applyFilters asciiLower (searchOnly " ".toList)
      { allQuestions := [hashOnly], filteredQuestions := [] }).filteredQuestions := by decide
  rcases h.mp hk with h0 | ⟨pre, post, h1⟩
  · simp at h0
  · have hmem : ' ' ∈ asciiLower (searchBlob hashOnly) := by
      rw [h1]; simp [asciiLower]
    revert hmem
    decide

/-- C2, amended. With the three facet criteria empty, a question of
`allQuestions` is kept if and only if the search text, lower-cased and then
trimmed, is empty or occurs as a substring of the lower-cased searchable text
(the non-empty fields among stem, lexicon_terms, category, role_focus and type,
joined by single spaces).  For ASCII text, the question with stem
`Hash Collisions` is kept for the search texts `hash` and `COLLISION`; the
searchable text of a question with all five fields is the five joined in that
order, and a search text is matched in the later fields and across two of
them. -/
theorem applyFilters_search :
    (∀ (toLowerCase : Str → Str) (st : Store) (s : Str) (q : Question),
      q ∈ (applyFilters toLowerCase (searchOnly s) st).filteredQuestions ↔
        q ∈ st.allQuestions ∧
          (trim (toLowerCase s) = [] ∨
            ∃ pre post, toLowerCase (searchBlob q) = pre ++ trim (toLowerCase s) ++ post))
    ∧ (applyFilters asciiLower (searchOnly "hash".toList)
        (fetchQuestions (some sampleData))).filteredQuestions.map (fun q => q.stem)
        = ["Hash Collisions".toList]
    ∧ (applyFilters asciiLower (searchOnly "COLLISION".toList)
        (fetchQuestions (some sampleData))).filteredQuestions.map (fun q => q.stem)
        = ["Hash Collisions".toList]
    ∧ searchBlob allFields = "Hash Collisions digest Crypto Engineer MCQ".toList
    ∧ (normalize sampleData).map searchBlob
        = ["Hash Collisions Crypto Engineer".toList, "Overfitting ML".toList]
    ∧ (applyFilters asciiLower (searchOnly " Digest CRYPTO ".toList)
        { allQuestions := [hashOnly, allFields], filteredQuestions := [] }).filteredQuestions
        = [allFields]
    ∧ (applyFilters asciiLower (searchOnly "mcq".toList)
        { allQuestions := [hashOnly, allFields], filteredQuestions := [] }).filteredQuestions
        = [allFields] := by
  refine ⟨?_, by decide, by decide, by decide, by decide, by decide, by decide⟩
  intro toLowerCase st s q
  simp only [applyFilters, searchOnly, searchOf, Option.getD_some, List.mem_filter,
    passesFilters_iff, includes_iff, searchable]
  simp

/-! ## `escapeHtml`: theorems -/

theorem escapeHtml_cons (c : Char) (s : Str) :
    escapeHtml (c :: s) = escapeChar c ++ escapeHtml s := by
  unfold escapeHtml replaceAll escapeChar
  by_cases h1 : c = '&'
  · subst h1
    simp [List.flatMap_cons, List.flatMap_append]
  · by_cases h2 : c = '<'
    · subst h2
      simp [List.flatMap_cons, List.flatMap_append]
    · by_cases h3 : c = '>'
      · subst h3
        simp [List.flatMap_cons, List.flatMap_append]
      · simp [List.flatMap_cons, List.flatMap_append, h1, h2, h3]

theorem escapeChar_no_angle (c : Char) : '<' ∉ escapeChar c ∧ '>' ∉ escapeChar c := by
  unfold escapeChar
  by_cases h1 : c = '&'
  · simp [h1]
  · by_cases h2 : c = '<'
    · simp [h2]
    · by_cases h3 : c = '>'
      · simp [h3]
      · simp [h1, h2, h3]
        exact ⟨fun h => h2 h.symm, fun h => h3 h.symm⟩

theorem amp_split (tl pre rest : Str) (h : '&' ∉ tl) (heq : '&' :: tl = pre ++ '&' :: rest) :
    pre = [] ∧ rest = tl := by
  cases pre with
  | nil => simp at heq; exact ⟨rfl, heq.symm⟩
  | cons x pre =>
    simp only [List.cons_append, List.cons.injEq] at heq
    exact absurd (by rw [heq.2]; simp) h

theorem escapeChar_amp (c : Char) (pre rest : Str) (heq : escapeChar c = pre ++ '&' :: rest) :
    pre = [] ∧ (rest = "amp;".toList ∨ rest = "lt;".toList ∨ rest = "gt;".toList) := by
  unfold escapeChar at heq
  by_cases h1 : c = '&'
  · rw [if_pos h1] at heq
    obtain ⟨hp, hr⟩ := amp_split "amp;".toList pre rest (by decide) heq
    exact ⟨hp, Or.inl hr⟩
  · rw [if_neg h1] at heq
    by_cases h2 : c = '<'
    · rw [if_pos h2] at heq
      obtain ⟨hp, hr⟩ := amp_split "lt;".toList pre rest (by decide) heq
      exact ⟨hp, Or.inr (Or.inl hr)⟩
    · rw [if_neg h2] at heq
      by_cases h3 : c = '>'
      · rw [if_pos h3] at heq
        obtain ⟨hp, hr⟩ := amp_split "gt;".toList pre rest (by decide) heq
        exact ⟨hp, Or.inr (Or.inr hr)⟩
      · rw [if_neg h3] at heq
        cases pre with
        | nil => simp at heq; exact absurd heq.1 h1
        | cons x pre => simp at heq

theorem escapeHtml_amp (s : Str) : ∀ pre post : Str, escapeHtml s = pre ++ '&' :: post →
    ("amp;".toList <+: post ∨ "lt;".toList <+: post ∨ "gt;".toList <+: post) := by
  induction s with
  | nil =>
    intro pre post h
    simp [escapeHtml, replaceAll] at h
  | cons c s ih =>
    intro pre post h
    rw [escapeHtml_cons, List.append_eq_append_iff] at h
    rcases h with ⟨a, _, h2⟩ | ⟨b, h1, h2⟩
    · exact ih a post h2
    · cases b with
      | nil => exact ih [] post (by simpa using h2.symm)
      | cons x b =>
        simp only [List.cons_append, List.cons.injEq] at h2
        obtain ⟨hx, hpost⟩ := h2
        subst hx
        obtain ⟨_, hb⟩ := escapeChar_amp c pre b h1
        rcases hb with hb | hb | hb
        · exact Or.inl ⟨escapeHtml s, by rw [hpost, hb]⟩
        · exact Or.inr (Or.inl ⟨escapeHtml s, by rw [hpost, hb]⟩)
        · exact Or.inr (Or.inr ⟨escapeHtml s, by rw [hpost, hb]⟩)

/-- C7. For every string `s`, `escapeHtml s` has no `<` and no `>`, and every
`&` in it is followed by `amp;`, `lt;` or `gt;`, so it starts one of the
entities `&amp;`, `&lt;`, `&gt;`; the text `<script>` comes out as
`&lt;script&gt;`, and that is what the answer panel holds for a question whose
author note is `see <script>`. -/
theorem escapeHtml_safe :
    (∀ s : Str, '<' ∉ escapeHtml s ∧ '>' ∉ escapeHtml s ∧
      ∀ pre post : Str, escapeHtml s = pre ++ '&' :: post →
        ("amp;".toList <+: post ∨ "lt;".toList <+: post ∨ "gt;".toList <+: post))
    ∧ escapeHtml "<script>".toList = "&lt;script&gt;".toList
    ∧ (normalize sampleData).map authorNote =
        [[], ("<div class=\"mt-1 text-[11px] text-emerald-900/80\">"
          ++ "<span class=\"font-semibold\">Author note:</span> see &lt;script&gt;</div>").toList]
    := by
  refine ⟨fun s => ⟨?_, ?_, escapeHtml_amp s⟩, by decide, by decide⟩
  · induction s with
    | nil => simp [escapeHtml, replaceAll]
    | cons c s ih =>
      rw [escapeHtml_cons, List.mem_append]
      exact fun h => h.elim (escapeChar_no_angle c).1 ih
  · induction s with
    | nil => simp [escapeHtml, replaceAll]
    | cons c s ih =>
      rw [escapeHtml_cons, List.mem_append]
      exact fun h => h.elim (escapeChar_no_angle c).2 ih

/-! ## Facet Indexer: theorems -/

theorem mem_setAdd (set : List Str) (x v : Str) : v ∈ setAdd set x ↔ v ∈ set ∨ v = x := by
  unfold setAdd
  split
  · constructor
    · exact Or.inl
    · rintro (h | h)
      · exact h
      · rw [h]; assumption
  · simp

theorem nodup_setAdd (set : List Str) (x : Str) (h : set.Nodup) : (setAdd set x).Nodup := by
  unfold setAdd
  split
  · exact h
  · rw [List.nodup_append]
    refine ⟨h, List.nodup_singleton x, ?_⟩
    intro a ha hb
    simp at hb
    subst hb
    contradiction

theorem mem_collectValues (key : Field) (list : List Question) :
    ∀ (set : List Str) (v : Str), v ∈ collectValues key set list ↔
      v ∈ set ∨ (v ≠ [] ∧ ∃ q ∈ list, orEmptyTrim (getProp q key) = v) := by
  induction list with
  | nil => intro set v; simp [collectValues]
  | cons item list ih =>
    intro set v
    have hstep : collectValues key set (item :: list)
        = collectValues key
            (if !(orEmptyTrim (getProp item key)).isEmpty
              then setAdd set (orEmptyTrim (getProp item key)) else set) list := by
      simp [collectValues]
    rw [hstep, ih]
    by_cases hv : orEmptyTrim (getProp item key) = []
    · simp only [hv, List.isEmpty_nil, Bool.not_true, Bool.false_eq_true, if_false,
        List.mem_cons, exists_eq_or_imp]
      constructor
      · rintro (h | ⟨h1, h2⟩)
        · exact Or.inl h
        · exact Or.inr ⟨h1, Or.inr h2⟩
      · rintro (h | ⟨h1, h2 | h2⟩)
        · exact Or.inl h
        · exact absurd h2.symm h1
        · exact Or.inr ⟨h1, h2⟩
    · have hne : (!(orEmptyTrim (getProp item key)).isEmpty) = true := by
        simp [List.isEmpty_iff, hv]
      simp only [hne, if_true, mem_setAdd, List.mem_cons, exists_eq_or_imp]
      constructor
      · rintro ((h | h) | ⟨h1, h2⟩)
        · exact Or.inl h
        · exact Or.inr ⟨by rw [h]; exact hv, Or.inl h.symm⟩
        · exact Or.inr ⟨h1, Or.inr h2⟩
      · rintro (h | ⟨h1, h2 | h2⟩)
        · exact Or.inl (Or.inl h)
        · exact Or.inl (Or.inr h2.symm)
        · exact Or.inr ⟨h1, h2⟩

theorem nodup_collectValues (key : Field) (list : List Question) :
    ∀ set : List Str, set.Nodup → (collectValues key set list).Nodup := by
  induction list with
  | nil => intro set h; simpa [collectValues] using h
  | cons item list ih =>
    intro set h
    have hstep : collectValues key set (item :: list)
        = collectValues key
            (if !(orEmptyTrim (getProp item key)).isEmpty
              then setAdd set (orEmptyTrim (getProp item key)) else set) list := by
      simp [collectValues]
    rw [hstep]
    apply ih
    split
    · exact nodup_setAdd _ _ h
    · exact h

theorem mem_getUniqueValues (localeCompare : Str → Str → Int) (list : List Question)
    (key : Field) (v : Str) :
    v ∈ getUniqueValues localeCompare list key ↔
      v ≠ [] ∧ ∃ q ∈ list, orEmptyTrim (getProp q key) = v := by
  unfold getUniqueValues
  rw [List.mem_mergeSort, mem_collectValues]
  simp

/-- C6. For a comparator that is total and transitive, as `localeCompare` is,
`getUniqueValues` returns, for every question list and every key, a list that
is ascending for the comparator, without duplicate and without the empty
string, whose members are exactly the non-empty values
`(item[key] || "").toString().trim()` of the questions of the list. -/
theorem getUniqueValues_spec (localeCompare : Str → Str → Int)
    (htotal : ∀ a b, localeCompare a b ≤ 0 ∨ localeCompare b a ≤ 0)
    (htrans : ∀ a b c, localeCompare a b ≤ 0 → localeCompare b c ≤ 0 → localeCompare a c ≤ 0)
    (list : List Question) (key : Field) :
    (getUniqueValues localeCompare list key).Pairwise (fun a b => localeCompare a b ≤ 0)
    ∧ (getUniqueValues localeCompare list key).Nodup
    ∧ [] ∉ getUniqueValues localeCompare list key
    ∧ ∀ v, v ∈ getUniqueValues localeCompare list key ↔
        v ≠ [] ∧ ∃ q ∈ list, orEmptyTrim (getProp q key) = v := by
  refine ⟨?_, ?_, ?_, mem_getUniqueValues localeCompare list key⟩
  · have hs := @List.sorted_mergeSort Str (fun a b => decide (localeCompare a b ≤ 0))
      (fun a b c hab hbc => by
        simp only [decide_eq_true_eq] at hab hbc ⊢
        exact htrans a b c hab hbc)
      (fun a b => by
        simp only [Bool.or_eq_true, decide_eq_true_eq]
        exact htotal a b)
      (collectValues key [] list)
    unfold getUniqueValues
    exact hs.imp (fun h => by simpa using h)
  · unfold getUniqueValues
    exact (List.mergeSort_perm _ _).nodup_iff.mpr
      (nodup_collectValues key list [] List.nodup_nil)
  · rw [mem_getUniqueValues]
    simp

theorem getUniqueValues_spec_witness :
    (∀ a b, lengthCompare a b ≤ 0 ∨ lengthCompare b a ≤ 0)
    ∧ (∀ a b c, lengthCompare a b ≤ 0 → lengthCompare b c ≤ 0 → lengthCompare a c ≤ 0)
    ∧ (getUniqueValues lengthCompare (normalize sampleData) Field.category).Nodup
    ∧ [] ∉ getUniqueValues lengthCompare (normalize sampleData) Field.category :=
  ⟨fun a b => by unfold lengthCompare; omega,
   fun a b c => by unfold lengthCompare; omega,
   (getUniqueValues_spec lengthCompare (fun a b => by unfold lengthCompare; omega)
      (fun a b c => by unfold lengthCompare; omega) (normalize sampleData) Field.category).2.1,
   (getUniqueValues_spec lengthCompare (fun a b => by unfold lengthCompare; omega)
      (fun a b c => by unfold lengthCompare; omega) (normalize sampleData) Field.category).2.2.1⟩

/-! ## Normalised questions are trimmed -/

theorem trim_orEmptyTrim (v : JSVal) : trim (orEmptyTrim v) = orEmptyTrim v := by
  unfold orEmptyTrim
  exact trim_idem _

theorem trim_toDifficultyLabel (v : JSVal) :
    trim (toDifficultyLabel v) = toDifficultyLabel v := by
  unfold toDifficultyLabel
  split
  · exact trim_nil
  · simp only []
    split
    · exact trim_idem _
    · split
      · decide
      · split
        · decide
        · split
          · decide
          · exact trim_idem _

theorem mem_mapFrom (q : Question) : ∀ (rs : List RawRecord) (idx : Nat),
    q ∈ mapFrom idx rs → ∃ r ∈ rs, ∃ i, q = normalizeRecord r i := by
  intro rs
  induction rs with
  | nil => intro idx h; simp [mapFrom] at h
  | cons r rs ih =>
    intro idx h
    simp only [mapFrom, List.mem_cons] at h
    rcases h with h | h
    · exact ⟨r, List.mem_cons_self _ _, idx, h⟩
    · obtain ⟨r', hr', i, hi⟩ := ih (idx + 1) h
      exact ⟨r', List.mem_cons_of_mem _ hr', i, hi⟩

theorem orEmptyTrim_str_of_trimmed (s : Str) (h : trim s = s) : orEmptyTrim (.str s) = s := by
  unfold orEmptyTrim
  cases s with
  | nil => simp [truthy, trim_nil]
  | cons a s => simpa [truthy, jsToString] using h

/-- The value a facet key reads from a normalised question is already trimmed, so
`getUniqueValues` lists it unchanged. -/
theorem facet_trimmed (data : List RawItem) (q : Question) (hq : q ∈ normalize data)
    (f : Field) (hf : f = .category ∨ f = .role_focus ∨ f = .difficulty) :
    getProp q f = .str (orEmptyTrim (getProp q f)) := by
  obtain ⟨r, _, i, hi⟩ := mem_mapFrom q _ _ hq
  subst hi
  rcases hf with hf | hf | hf <;> subst hf
  · simp only [getProp, normalizeRecord]
    rw [orEmptyTrim_str_of_trimmed _ (trim_orEmptyTrim _)]
  · simp only [getProp, normalizeRecord]
    rw [orEmptyTrim_str_of_trimmed _ (trim_orEmptyTrim _)]
  · simp only [getProp, normalizeRecord]
    rw [orEmptyTrim_str_of_trimmed _ (trim_toDifficultyLabel _)]

/-- C10. For the questions normalised from any records and each facet key `f`
among category, role_focus and difficulty, every value `v` that
`getUniqueValues` lists for `f`, used as the only non-empty criterion of
`applyFilters`, selects at least one question, and every selected question has
`v` as its field `f`. -/
theorem facet_value_selects (localeCompare : Str → Str → Int) (toLowerCase : Str → Str)
    (hlow : toLowerCase [] = []) (data : List RawItem) (f : Field) (v : Str)
    (hf : f = .category ∨ f = .role_focus ∨ f = .difficulty)
    (hv : v ∈ getUniqueValues localeCompare (fetchQuestions (some data)).allQuestions f) :
    (applyFilters toLowerCase (onlyCriterion f v)
        (fetchQuestions (some data))).filteredQuestions ≠ []
    ∧ ∀ q ∈ (applyFilters toLowerCase (onlyCriterion f v)
        (fetchQuestions (some data))).filteredQuestions, getProp q f = .str v := by
  rw [mem_getUniqueValues] at hv
  obtain ⟨hne, q0, hq0, hval⟩ := hv
  have hq0f : getProp q0 f = .str v := by
    rw [facet_trimmed data q0 hq0 f hf, hval]
  have hmem : ∀ q, q ∈ (applyFilters toLowerCase (onlyCriterion f v)
        (fetchQuestions (some data))).filteredQuestions ↔
      q ∈ normalize data ∧ getProp q f = .str v := by
    intro q
    simp only [applyFilters, fetchQuestions, onlyCriterion, searchOf, Option.getD_some,
      List.mem_filter, passesFilters_iff, hlow, trim_nil]
    rcases hf with hf | hf | hf <;> subst hf <;> simp [getProp, hne]
  constructor
  · intro hnil
    have := (hmem q0).mpr ⟨hq0, hq0f⟩
    rw [hnil] at this
    simp at this
  · intro q hq
    exact ((hmem q).mp hq).2

theorem facet_value_selects_witness :
    asciiLower [] = []
    ∧ "ML".toList ∈ getUniqueValues lengthCompare
        (fetchQuestions (some sampleData)).allQuestions Field.category
    ∧ (applyFilters asciiLower (onlyCriterion Field.category "ML".toList)
        (fetchQuestions (some sampleData))).filteredQuestions ≠ [] :=
  have hv : "ML".toList ∈ getUniqueValues lengthCompare
      (fetchQuestions (some sampleData)).allQuestions Field.category :=
    (mem_getUniqueValues _ _ _ _).mpr ⟨by decide, by decide⟩
  ⟨rfl, hv,
    (facet_value_selects lengthCompare asciiLower rfl sampleData Field.category "ML".toList
      (Or.inl rfl) hv).1⟩

/-! ## Record Normalizer: theorems -/

/-- The records kept are those whose stem is truthy: a missing, `null`, `false`,
`0` or empty stem drops the record, any other stem keeps it. -/
theorem length_normalize (data : List RawItem) :
    (normalize data).length = (data.filter (fun x => (keepRecord x).isSome)).length := by
  have hmap : ∀ (rs : List RawRecord) (i : Nat), (mapFrom i rs).length = rs.length := by
    intro rs
    induction rs with
    | nil => intro i; rfl
    | cons r rs ih => intro i; simp [mapFrom, ih]
  unfold normalize
  rw [hmap]
  induction data with
  | nil => rfl
  | cons x data ih =>
    cases hx : keepRecord x <;> simp [List.filterMap_cons, List.filter_cons, hx, ih]

/-- C3, the input on which the code departs from it. A record whose stem is
three spaces is not dropped: the filter tests the stem before it is trimmed,
and the question that comes out has the empty stem. -/
theorem normalize_blank_stem :
    (normalize [RawItem.record { stem := .str "   ".toList }]).length = 1
    ∧ (normalize [RawItem.record { stem := .str "   ".toList }]).map (fun q => q.stem)
        = [[]] := by
  decide

/-- What `toDifficultyLabel` does on the inputs the bucket rule names: `null`,
`undefined` and the empty string give the empty string; an integer number gives
its bucket; a string that `Number` turns into `NaN` is returned trimmed. -/
theorem toDifficultyLabel_buckets :
    toDifficultyLabel .null = [] ∧ toDifficultyLabel .undefined = []
    ∧ toDifficultyLabel (.str []) = []
    ∧ (∀ n : Int, toDifficultyLabel (.num n) =
        if n ≤ 1 then "Beginner".toList
        else if n = 2 then "Intermediate".toList else "Advanced".toList)
    ∧ (∀ s : Str, stringToNumber s = .nan → toDifficultyLabel (.str s) = trim s)
    ∧ toDifficultyLabel (.str "easy".toList) = "easy".toList := by
  refine ⟨by decide, by decide, by decide, ?_, ?_, by decide⟩
  · intro n
    have h53 : (2 : Nat) ^ 53 = 9007199254740992 := by norm_num
    have h52 : (2 : Nat) ^ 52 = 4503599627370496 := by norm_num
    have h54 : (2 : Nat) ^ 54 = 18014398509481984 := by norm_num
    simp only [toDifficultyLabel, toNumber, JSNumber.isNaN, JSNumber.leOne, scaledLe]
    by_cases h1 : n ≤ 1
    · have : decide (n < 0) = true ∨ n.natAbs ≤ 1 := by
        by_cases hn : n < 0
        · exact Or.inl (by simpa using hn)
        · exact Or.inr (by omega)
      rcases this with h | h
      · simp [h, h1]
      · have h' : n.natAbs * 9007199254740992 ≤ 9007199254740992 + 1 := by omega
        simp [h53, h', h1]
    · have hneg : decide (n < 0) = false := by simp; omega
      have hbig : ¬ (n.natAbs * 9007199254740992 ≤ 9007199254740992 + 1) := by omega
      by_cases h2 : n = 2
      · subst h2
        simp [JSNumber.eqTwo, scaledGe, scaledLe, h53, h52, h54]
      · have hne2 : ¬ (18014398509481984 - 1 ≤ n.natAbs * 9007199254740992
            ∧ n.natAbs * 4503599627370496 ≤ 9007199254740992 + 1) := by omega
        have hge3 : 3 * 4503599627370496 - 1 ≤ n.natAbs * 4503599627370496 := by omega
        simp [hneg, JSNumber.eqTwo, JSNumber.geThree, scaledGe, scaledLe, h53, h52, h54, hbig,
          hne2, hge3, h1, h2]
  · intro s hs
    have hne : s ≠ [] := by
      intro h
      rw [h] at hs
      revert hs
      decide
    simp [toDifficultyLabel, toNumber, hs, JSNumber.isNaN, jsToString, hne]

/-- C4, the input on which the code departs from it. A difficulty that is one
space is not the empty string, `Number` makes `0` of it, and the label is
`Beginner`, not the trimmed text. -/
theorem toDifficultyLabel_blank :
    toDifficultyLabel (.str " ".toList) = "Beginner".toList
    ∧ trim " ".toList = [] := by
  decide

/-! ## Answer panel: theorems -/

/-- C5 as stated fails: for the `correct_option` `E` the panel shows the bare
letter `E`, and `N/A` is nowhere in the line. -/
theorem correctLine_unmatched_counterexample :
    correctLine asciiUpper optionE = "E ".toList
    ∧ ¬ ∃ pre post, correctLine asciiUpper optionE = pre ++ "N/A".toList ++ post := by
  have h : correctLine asciiUpper optionE = "E ".toList := by decide
  refine ⟨h, ?_⟩
  rintro ⟨pre, post, hp⟩
  have hmem : '/' ∈ correctLine asciiUpper optionE := by
    rw [hp]; simp
  rw [h] at hmem
  revert hmem
  decide

theorem correctLabel_eq (toUpperCase : Str → Str) (q : Question) (h : q.correct_option ≠ []) :
    correctLabel toUpperCase q = toUpperCase (trim q.correct_option) := by
  simp [correctLabel, List.isEmpty_iff, h]

theorem correctLine_of_label (toUpperCase : Str → Str) (q : Question) (label : Str)
    (hl : correctLabel toUpperCase q = label) (hne : label ≠ []) :
    correctLine toUpperCase q =
      label ++ (if optionLookup q label ≠ [] then ".".toList else [])
        ++ " ".toList ++ optionLookup q label := by
  unfold correctLine correctText
  rw [hl]
  by_cases ho : optionLookup q label = []
  · simp [List.isEmpty_iff, hne, ho]
  · simp [List.isEmpty_iff, hne, ho]

/-- C5, amended. With `label` the trimmed, upper-cased `correct_option`: when
the label is one of `A` to `D` and that option has text, the panel shows the
label, a dot and the option's text; when `correct_option` (or the label) is
empty it shows `N/A`; when the label is not empty and resolves to no option
text (a value outside `A` to `D`, or a letter whose option is empty) it shows
the bare label. -/
theorem correctLine_cases (toUpperCase : Str → Str) (q : Question) :
    (q.correct_option ≠ [] → toUpperCase (trim q.correct_option) = "A".toList →
        q.option_A ≠ [] → correctLine toUpperCase q = "A. ".toList ++ q.option_A)
    ∧ (q.correct_option ≠ [] → toUpperCase (trim q.correct_option) = "B".toList →
        q.option_B ≠ [] → correctLine toUpperCase q = "B. ".toList ++ q.option_B)
    ∧ (q.correct_option ≠ [] → toUpperCase (trim q.correct_option) = "C".toList →
        q.option_C ≠ [] → correctLine toUpperCase q = "C. ".toList ++ q.option_C)
    ∧ (q.correct_option ≠ [] → toUpperCase (trim q.correct_option) = "D".toList →
        q.option_D ≠ [] → correctLine toUpperCase q = "D. ".toList ++ q.option_D)
    ∧ (q.correct_option = [] → correctLine toUpperCase q = "N/A ".toList)
    ∧ (toUpperCase (trim q.correct_option) = [] → correctLine toUpperCase q = "N/A ".toList)
    ∧ (q.correct_option ≠ [] → toUpperCase (trim q.correct_option) ≠ [] →
        toUpperCase (trim q.correct_option) ≠ "A".toList →
        toUpperCase (trim q.correct_option) ≠ "B".toList →
        toUpperCase (trim q.correct_option) ≠ "C".toList →
        toUpperCase (trim q.correct_option) ≠ "D".toList →
        correctLine toUpperCase q = toUpperCase (trim q.correct_option) ++ " ".toList)
    ∧ (q.correct_option ≠ [] → toUpperCase (trim q.correct_option) = "A".toList →
        q.option_A = [] → correctLine toUpperCase q = "A ".toList)
    ∧ (q.correct_option ≠ [] → toUpperCase (trim q.correct_option) = "B".toList →
        q.option_B = [] → correctLine toUpperCase q = "B ".toList)
    ∧ (q.correct_option ≠ [] → toUpperCase (trim q.correct_option) = "C".toList →
        q.option_C = [] → correctLine toUpperCase q = "C ".toList)
    ∧ (q.correct_option ≠ [] → toUpperCase (trim q.correct_option) = "D".toList →
        q.option_D = [] → correctLine toUpperCase q = "D ".toList)
    ∧ (correctLabel toUpperCase q ≠ [] →
        optionLookup q (correctLabel toUpperCase q) ≠ [] →
        correctLine toUpperCase q = correctLabel toUpperCase q ++ ". ".toList
          ++ optionLookup q (correctLabel toUpperCase q))
    ∧ (correctLabel toUpperCase q = [] → correctLine toUpperCase q = "N/A ".toList)
    ∧ (correctLabel toUpperCase q ≠ [] →
        optionLookup q (correctLabel toUpperCase q) = [] →
        correctLine toUpperCase q = correctLabel toUpperCase q ++ " ".toList)
    ∧ (q.correct_option ≠ [] → correctLabel toUpperCase q = toUpperCase (trim q.correct_option))
    ∧ (∀ label, optionLookup q label ≠ [] →
        (label = "A".toList ∧ optionLookup q label = q.option_A)
        ∨ (label = "B".toList ∧ optionLookup q label = q.option_B)
        ∨ (label = "C".toList ∧ optionLookup q label = q.option_C)
        ∨ (label = "D".toList ∧ optionLookup q label = q.option_D)) := by
  have hA : optionLookup q "A".toList = q.option_A := by simp [optionLookup]
  have hB : optionLookup q "B".toList = q.option_B := by simp [optionLookup]
  have hC : optionLookup q "C".toList = q.option_C := by simp [optionLookup]
  have hD : optionLookup q "D".toList = q.option_D := by simp [optionLookup]
  have hshown : ∀ (label text : Str), q.correct_option ≠ [] →
      toUpperCase (trim q.correct_option) = label → label ≠ [] →
      optionLookup q label = text → text ≠ [] →
      correctLine toUpperCase q = label ++ ".".toList ++ " ".toList ++ text := by
    intro label text h hl hne ho ht
    rw [correctLine_of_label toUpperCase q label
      ((correctLabel_eq toUpperCase q h).trans hl) hne, ho, if_pos ht]
  have hbare : ∀ (label : Str), q.correct_option ≠ [] →
      toUpperCase (trim q.correct_option) = label → label ≠ [] →
      optionLookup q label = [] →
      correctLine toUpperCase q = label ++ " ".toList := by
    intro label h hl hne ho
    rw [correctLine_of_label toUpperCase q label
      ((correctLabel_eq toUpperCase q h).trans hl) hne, ho]
    simp
  have hnone : correctLabel toUpperCase q = [] → correctLine toUpperCase q = "N/A ".toList := by
    intro h
    simp [correctLine, correctText, h]
  refine ⟨?_, ?_, ?_, ?_, ?_, ?_, ?_, ?_, ?_, ?_, ?_, ?_, hnone, ?_, correctLabel_eq toUpperCase q, ?_⟩
  · intro h hl ht
    exact hshown _ _ h hl (by decide) hA ht
  · intro h hl ht
    exact hshown _ _ h hl (by decide) hB ht
  · intro h hl ht
    exact hshown _ _ h hl (by decide) hC ht
  · intro h hl ht
    exact hshown _ _ h hl (by decide) hD ht
  · intro h
    simp [correctLine, correctText, correctLabel, h]
  · intro h
    by_cases hc : q.correct_option = []
    · simp [correctLine, correctText, correctLabel, hc]
    · exact hnone ((correctLabel_eq toUpperCase q hc).trans h)
  · intro h hne nA nB nC nD
    refine hbare _ h rfl hne ?_
    unfold optionLookup
    rw [if_neg nA, if_neg nB, if_neg nC, if_neg nD]
  · intro h hl ht
    exact hbare _ h hl (by decide) (hA.trans ht)
  · intro h hl ht
    exact hbare _ h hl (by decide) (hB.trans ht)
  · intro h hl ht
    exact hbare _ h hl (by decide) (hC.trans ht)
  · intro h hl ht
    exact hbare _ h hl (by decide) (hD.trans ht)
  · intro h1 h2
    simp [correctLine, correctText, List.isEmpty_iff, h1, h2]
  · intro h1 h2
    simp [correctLine, correctText, List.isEmpty_iff, h1, h2]
  · intro label h
    unfold optionLookup at h ⊢
    by_cases hA : label = "A".toList
    · left; simp [hA]
    · by_cases hB : label = "B".toList
      · right; left; simp [hB]
      · by_cases hC : label = "C".toList
        · right; right; left; simp [hC]
        · by_cases hD : label = "D".toList
          · right; right; right; simp [hD]
          · rw [if_neg hA, if_neg hB, if_neg hC, if_neg hD] at h
            exact absurd rfl h

theorem correctLine_cases_witness :
    (normalizeRecord
        { stem := .str "Pick one".toList, option_B := .str "second".toList,
          correct_option := .str " b".toList } 0).correct_option ≠ []
    ∧ asciiUpper (trim (normalizeRecord
        { stem := .str "Pick one".toList, option_B := .str "second".toList,
          correct_option := .str " b".toList } 0).correct_option) = "B".toList
    ∧ (normalizeRecord
        { stem := .str "Pick one".toList, option_B := .str "second".toList,
          correct_option := .str " b".toList } 0).option_B ≠ []
    ∧ correctLine asciiUpper (normalizeRecord
        { stem := .str "Pick one".toList, option_B := .str "second".toList,
          correct_option := .str " b".toList } 0) = "B. second".toList :=
  ⟨by decide, by decide, by decide,
    ((correctLine_cases asciiUpper (normalizeRecord
      { stem := .str "Pick one".toList, option_B := .str "second".toList,
        correct_option := .str " b".toList } 0)).2.1 (by decide) (by decide) (by decide)).trans
      (by decide)⟩

/-! ## Question ids: theorems -/

theorem digitChar_val : ∀ k : Fin 10, (Nat.digitChar k.val).toNat - 48 = k.val := by
  decide

theorem digitsToNat_append_singleton (xs : Str) (c : Char) :
    digitsToNat (xs ++ [c]) = 10 * digitsToNat xs + (c.toNat - 48) := by
  simp [digitsToNat, List.foldl_append]

theorem toDigitsCore_value : ∀ (fuel n : Nat) (ds : Str), n < fuel →
    ∃ xs, Nat.toDigitsCore 10 fuel n ds = xs ++ ds ∧ digitsToNat xs = n := by
  intro fuel
  induction fuel with
  | zero => intro n ds h; omega
  | succ fuel ih =>
    intro n ds h
    have hd : (Nat.digitChar (n % 10)).toNat - 48 = n % 10 :=
      digitChar_val ⟨n % 10, Nat.mod_lt _ (by decide)⟩
    by_cases h0 : n / 10 = 0
    · refine ⟨[Nat.digitChar (n % 10)], by simp [Nat.toDigitsCore, h0], ?_⟩
      simp only [digitsToNat, List.foldl_cons, List.foldl_nil, hd]
      omega
    · obtain ⟨xs, hxs, hval⟩ := ih (n / 10) (Nat.digitChar (n % 10) :: ds) (by omega)
      refine ⟨xs ++ [Nat.digitChar (n % 10)], by simp [Nat.toDigitsCore, h0, hxs], ?_⟩
      rw [digitsToNat_append_singleton, hval, hd]
      omega

theorem digitsToNat_toDigits (n : Nat) : digitsToNat (Nat.toDigits 10 n) = n := by
  obtain ⟨xs, hxs, hval⟩ := toDigitsCore_value (n + 1) n [] (by omega)
  unfold Nat.toDigits
  rw [hxs, List.append_nil, hval]

theorem fallbackId_injective (i j : Nat) (h : fallbackId i = fallbackId j) : i = j := by
  unfold fallbackId at h
  have h2 := congrArg digitsToNat (List.append_cancel_left h)
  rw [digitsToNat_toDigits, digitsToNat_toDigits] at h2
  omega

theorem mem_assignedFallbacks (v : JSVal) : ∀ (rs : List RawRecord) (idx : Nat),
    v ∈ assignedFallbacks idx rs → ∃ j, idx ≤ j ∧ v = .str (fallbackId j) := by
  intro rs
  induction rs with
  | nil => intro idx h; simp [assignedFallbacks] at h
  | cons r rs ih =>
    intro idx h
    unfold assignedFallbacks at h
    split at h
    · obtain ⟨j, hj, hv⟩ := ih (idx + 1) h
      exact ⟨j, by omega, hv⟩
    · rcases List.mem_cons.mp h with h | h
      · exact ⟨idx, le_refl _, h⟩
      · obtain ⟨j, hj, hv⟩ := ih (idx + 1) h
        exact ⟨j, by omega, hv⟩

theorem mem_ids_mapFrom (v : JSVal) : ∀ (rs : List RawRecord) (idx : Nat),
    v ∈ (mapFrom idx rs).map (fun q => q.id) →
      v ∈ suppliedIds rs ∨ v ∈ assignedFallbacks idx rs := by
  intro rs
  induction rs with
  | nil => intro idx h; simp [mapFrom] at h
  | cons r rs ih =>
    intro idx h
    simp only [mapFrom, List.map_cons, List.mem_cons] at h
    by_cases ht : truthy r.id = true
    · rcases h with h | h
      · left
        simp [suppliedIds, List.filter_cons, ht, h, normalizeRecord]
      · rcases ih (idx + 1) h with h' | h'
        · left
          unfold suppliedIds at h' ⊢
          simp only [List.map_cons, List.filter_cons, ht, if_true]
          exact List.mem_cons_of_mem _ h'
        · right
          simpa [assignedFallbacks, ht] using h'
    · rcases h with h | h
      · right
        simp [assignedFallbacks, ht, h, normalizeRecord]
      · rcases ih (idx + 1) h with h' | h'
        · left
          unfold suppliedIds at h' ⊢
          simp only [List.map_cons, List.filter_cons, ht]
          exact h'
        · right
          simp only [assignedFallbacks, ht]
          exact List.mem_cons_of_mem _ h'

theorem nodup_ids_mapFrom : ∀ (rs : List RawRecord) (idx : Nat),
    (suppliedIds rs).Nodup →
    (∀ v ∈ suppliedIds rs, v ∉ assignedFallbacks idx rs) →
    ((mapFrom idx rs).map (fun q => q.id)).Nodup := by
  intro rs
  induction rs with
  | nil => intro idx _ _; simp [mapFrom]
  | cons r rs ih =>
    intro idx h1 h2
    simp only [mapFrom, List.map_cons, List.nodup_cons]
    by_cases ht : truthy r.id = true
    · have hs : suppliedIds (r :: rs) = r.id :: suppliedIds rs := by
        simp [suppliedIds, List.filter_cons, ht]
      have hf : assignedFallbacks idx (r :: rs) = assignedFallbacks (idx + 1) rs := by
        simp [assignedFallbacks, ht]
      rw [hs] at h1 h2
      rw [hf] at h2
      have hid : (normalizeRecord r idx).id = r.id := by simp [normalizeRecord, ht]
      refine ⟨?_, ih (idx + 1) (List.nodup_cons.mp h1).2
        (fun v hv => h2 v (List.mem_cons_of_mem _ hv))⟩
      rw [hid]
      intro hmem
      rcases mem_ids_mapFrom _ _ _ hmem with h | h
      · exact (List.nodup_cons.mp h1).1 h
      · exact h2 r.id (List.mem_cons_self _ _) h
    · have hs : suppliedIds (r :: rs) = suppliedIds rs := by
        simp [suppliedIds, List.filter_cons, ht]
      have hf : assignedFallbacks idx (r :: rs)
          = .str (fallbackId idx) :: assignedFallbacks (idx + 1) rs := by
        simp [assignedFallbacks, ht]
      rw [hs] at h1 h2
      rw [hf] at h2
      have hid : (normalizeRecord r idx).id = .str (fallbackId idx) := by
        simp [normalizeRecord, ht]
      refine ⟨?_, ih (idx + 1) h1
        (fun v hv hmem => h2 v hv (List.mem_cons_of_mem _ hmem))⟩
      rw [hid]
      intro hmem
      rcases mem_ids_mapFrom _ _ _ hmem with h | h
      · exact h2 _ h (List.mem_cons_self _ _)
      · obtain ⟨j, hj, hv⟩ := mem_assignedFallbacks _ _ _ h
        have := fallbackId_injective idx j (by simpa using hv)
        omega

/-- C8 as stated fails: the only supplied id is `Q_1`, so the supplied ids are
pairwise distinct, yet the first record gets the fallback id `Q_1` and the two
questions have the same id. -/
theorem ids_clash_counterexample :
    ((clashData.filterMap keepRecord).map (fun r => r.id)).filter (fun v => v != .undefined)
        = [.str "Q_1".toList]
    ∧ (((clashData.filterMap keepRecord).map (fun r => r.id)).filter
        (fun v => v != .undefined)).Nodup
    ∧ (normalize clashData).map (fun q => q.id) = [.str "Q_1".toList, .str "Q_1".toList]
    ∧ ¬ ((normalize clashData).map (fun q => q.id)).Nodup := by
  decide

/-- C8, amended. For every sequence of raw records, if the truthy ids supplied
by the kept records are pairwise distinct and none of them equals a fallback
id `Q_<1-based-position>` given to a kept record without such an id, then the
ids of the normalised questions are pairwise distinct. -/
theorem normalize_ids_nodup (data : List RawItem)
    (h1 : (suppliedIds (data.filterMap keepRecord)).Nodup)
    (h2 : ∀ v ∈ suppliedIds (data.filterMap keepRecord),
      v ∉ assignedFallbacks 0 (data.filterMap keepRecord)) :
    ((normalize data).map (fun q => q.id)).Nodup :=
  nodup_ids_mapFrom _ 0 h1 h2

theorem normalize_ids_nodup_witness :
    (suppliedIds (sampleData.filterMap keepRecord)).Nodup
    ∧ (∀ v ∈ suppliedIds (sampleData.filterMap keepRecord),
        v ∉ assignedFallbacks 0 (sampleData.filterMap keepRecord))
    ∧ ((normalize sampleData).map (fun q => q.id)).Nodup
    ∧ (normalize sampleData).map (fun q => q.id) = [.str "Q_1".toList, .str "X7".toList] :=
  ⟨by decide, by decide, normalize_ids_nodup sampleData (by decide) (by decide), by decide⟩

/-! ## Reveal control: the shape of a card -/

theorem not_answerBox_of_button (e : Elem) (h : isRevealButton e = true) :
    isAnswerBox e = false := by
  unfold isRevealButton at h
  unfold isAnswerBox
  simp only [Bool.and_eq_true, beq_iff_eq] at h
  rw [h.1]
  rfl

theorem not_button_of_answerBox (e : Elem) (h : isAnswerBox e = true) :
    isRevealButton e = false := by
  unfold isAnswerBox at h
  unfold isRevealButton
  simp only [Bool.and_eq_true, beq_iff_eq] at h
  rw [h.1]
  rfl

theorem find_answerBox (pre : List Elem) (btn box : Elem) (hpre : ∀ e ∈ pre, plain e = true)
    (hbtn : isRevealButton btn = true) (hbox : isAnswerBox box = true) :
    (pre ++ [btn, box]).find? isAnswerBox = some box := by
  have h1 : pre.find? isAnswerBox = none := by
    rw [List.find?_eq_none]
    intro e he
    have := hpre e he
    simp [plain] at this
    simp [this.2]
  rw [List.find?_append, h1]
  simp [List.find?_cons, not_answerBox_of_button btn hbtn, hbox]

theorem find_button (pre : List Elem) (btn box : Elem) (hpre : ∀ e ∈ pre, plain e = true)
    (hbtn : isRevealButton btn = true) :
    (pre ++ [btn, box]).find? isRevealButton = some btn := by
  have h1 : pre.find? isRevealButton = none := by
    rw [List.find?_eq_none]
    intro e he
    have := hpre e he
    simp [plain] at this
    simp [this.1]
  rw [List.find?_append, h1]
  simp [List.find?_cons, hbtn]

theorem findIdx_button (pre : List Elem) (btn box : Elem) (hpre : ∀ e ∈ pre, plain e = true)
    (hbtn : isRevealButton btn = true) :
    (pre ++ [btn, box]).findIdx isRevealButton = pre.length := by
  induction pre with
  | nil => simp [List.findIdx_cons, hbtn]
  | cons a pre ih =>
    have ha := hpre a (List.mem_cons_self _ _)
    simp [plain] at ha
    rw [List.cons_append, List.findIdx_cons, ha.1]
    simp [ih (fun e he => hpre e (List.mem_cons_of_mem _ he))]

theorem findIdx_answerBox (pre : List Elem) (btn box : Elem)
    (hpre : ∀ e ∈ pre, plain e = true)
    (hbtn : isRevealButton btn = true) (hbox : isAnswerBox box = true) :
    (pre ++ [btn, box]).findIdx? isAnswerBox = some (pre.length + 1) := by
  have h1 : pre.findIdx? isAnswerBox = none := by
    rw [List.findIdx?_eq_none_iff]
    intro e he
    have := hpre e he
    simp [plain] at this
    exact this.2
  rw [List.findIdx?_append, h1]
  simp [List.findIdx?_cons, not_answerBox_of_button btn hbtn, hbox]
  omega

theorem set_modify_tail (f : Elem → Elem) (pre : List Elem) (btn box box2 : Elem) :
    ((pre ++ [btn, box]).set (pre.length + 1) box2).modify f pre.length
      = pre ++ [f btn, box2] := by
  induction pre with
  | nil => simp
  | cons a pre ih => simpa using ih

theorem getElem_shape (pre : List Elem) (btn box : Elem) (ei : Nat) :
    (pre ++ [btn, box])[ei]? =
      if ei < pre.length then pre[ei]?
      else if ei = pre.length then some btn
      else if ei = pre.length + 1 then some box else none := by
  by_cases h1 : ei < pre.length
  · simp [h1, List.getElem?_append_left]
  · rw [if_neg h1, List.getElem?_append_right (by omega)]
    by_cases h2 : ei = pre.length
    · simp [h2]
    · by_cases h3 : ei = pre.length + 1
      · simp [h3]
      · rw [if_neg h2, if_neg h3]
        have : 2 ≤ ei - pre.length := by omega
        rw [List.getElem?_eq_none]
        simpa using this

/-- The click handler on a card of the shape: a click on the reveal button
toggles the class `hidden` of the panel and relabels the button, a click on any
other descendant changes nothing. -/
theorem clickCard_shape (pre : List Elem) (btn box : Elem)
    (hpre : ∀ e ∈ pre, plain e = true)
    (hbtn : isRevealButton btn = true) (hbox : isAnswerBox box = true) (ei : Nat) :
    clickCard { descendants := pre ++ [btn, box] } ei =
      if ei = pre.length then
        if box.classList.contains "hidden".toList then
          { descendants := pre ++
              [{ btn with content := "Hide answer".toList },
               { box with classList := classListRemove "hidden".toList box.classList }] }
        else
          { descendants := pre ++
              [{ btn with content := "Show answer".toList },
               { box with classList := classListAdd "hidden".toList box.classList }] }
      else { descendants := pre ++ [btn, box] } := by
  unfold clickCard
  simp only [getElem_shape]
  by_cases h1 : ei < pre.length
  · have hne : ei ≠ pre.length := by omega
    rw [if_pos h1, if_neg hne]
    have hsome : pre[ei]? = some pre[ei] := List.getElem?_eq_getElem h1
    rw [hsome]
    have hp := hpre pre[ei] (List.getElem_mem h1)
    simp [plain] at hp
    simp [hp.1]
  · rw [if_neg h1]
    by_cases h2 : ei = pre.length
    · subst h2
      simp only [if_true, hbtn, findIdx_answerBox pre btn box hpre hbtn hbox]
      have hlt : ¬ (pre.length + 1 < pre.length) := by omega
      have hne : ¬ (pre.length + 1 = pre.length) := by omega
      simp only [if_neg hlt, if_neg hne, if_true, set_modify_tail]
    · rw [if_neg h2, if_neg h2]
      by_cases h3 : ei = pre.length + 1
      · simp [h3, not_button_of_answerBox box hbox]
      · simp [h3]

theorem contains_classListRemove_self (cls : Str) (l : List Str) :
    (classListRemove cls l).contains cls = false := by
  simp [classListRemove]

theorem contains_classListAdd_self (cls : Str) (l : List Str) :
    (classListAdd cls l).contains cls = true := by
  unfold classListAdd
  split
  · assumption
  · simp

theorem contains_classListRemove_ne (cls other : Str) (l : List Str) (h : other ≠ cls)
    (hl : l.contains other = true) : (classListRemove cls l).contains other = true := by
  simp [classListRemove] at hl ⊢
  exact ⟨hl, h⟩

theorem contains_classListAdd_ne (cls other : Str) (l : List Str)
    (hl : l.contains other = true) : (classListAdd cls l).contains other = true := by
  unfold classListAdd
  split
  · exact hl
  · simp at hl ⊢
    exact Or.inl hl

/-! ## Reveal control: rendered cards -/

theorem chips_plain (q : Question) : (chips q).all plain = true := by
  unfold chips
  cases q.category.isEmpty <;> cases q.role_focus.isEmpty <;> cases q.difficulty.isEmpty <;> rfl

theorem optionItems_plain (l : List (Str × Str)) : (l.flatMap optionItem).all plain = true := by
  induction l with
  | nil => rfl
  | cons o l ih =>
    rw [List.flatMap_cons, List.all_append, ih, Bool.and_true]
    rfl

theorem optionsList_plain (q : Question) : (optionsList q).all plain = true := by
  unfold optionsList
  split
  · rfl
  · rw [List.all_cons, optionItems_plain, Bool.and_true]
    rfl

theorem cardHead_plain (q : Question) : ∀ e ∈ cardHead q, plain e = true := by
  have h : (cardHead q).all plain = true := by
    unfold cardHead
    simp only [List.all_append, chips_plain, optionsList_plain, Bool.and_true, Bool.true_and,
      Bool.and_eq_true]
    refine ⟨⟨⟨rfl, rfl⟩, ?_⟩, rfl⟩
    cases q.lexicon_terms.isEmpty <;> rfl
  exact List.all_eq_true.mp h

theorem renderCard_shape (toUpperCase : Str → Str) (q : Question) (idx : Nat) :
    CardShape (renderCard toUpperCase q idx) :=
  ⟨cardHead q, showBtn idx, answerBox toUpperCase q, rfl, cardHead_plain q, rfl, rfl,
    Or.inl ⟨rfl, rfl⟩⟩

theorem cardHidden_shape (pre : List Elem) (btn box : Elem) (hpre : ∀ e ∈ pre, plain e = true)
    (hbtn : isRevealButton btn = true) (hbox : isAnswerBox box = true) :
    cardHidden { descendants := pre ++ [btn, box] } = box.classList.contains "hidden".toList := by
  simp only [cardHidden, find_answerBox pre btn box hpre hbtn hbox]

theorem cardLabel_shape (pre : List Elem) (btn box : Elem) (hpre : ∀ e ∈ pre, plain e = true)
    (hbtn : isRevealButton btn = true) :
    cardLabel { descendants := pre ++ [btn, box] } = some btn.content := by
  simp only [cardLabel, find_button pre btn box hpre hbtn, Option.map_some']

/-- A card as first rendered: the panel hidden, the label `Show answer`. -/
theorem renderCard_hidden (toUpperCase : Str → Str) (q : Question) (idx : Nat) :
    cardHidden (renderCard toUpperCase q idx) = true
    ∧ cardLabel (renderCard toUpperCase q idx) = some "Show answer".toList := by
  constructor
  · exact (cardHidden_shape (cardHead q) (showBtn idx) (answerBox toUpperCase q)
      (cardHead_plain q) rfl rfl).trans rfl
  · exact (cardLabel_shape (cardHead q) (showBtn idx) (answerBox toUpperCase q)
      (cardHead_plain q) rfl).trans rfl

/-- A click on a descendant other than the reveal control leaves a card of the
shape as it is. -/
theorem clickCard_other (c : Card) (h : CardShape c) (ei : Nat) (hne : ei ≠ controlIndex c) :
    clickCard c ei = c := by
  obtain ⟨pre, btn, box, hd, hpre, hbtn, hbox, _⟩ := h
  cases c with
  | mk ds =>
    simp only at hd
    subst hd
    have hci : controlIndex { descendants := pre ++ [btn, box] } = pre.length :=
      findIdx_button pre btn box hpre hbtn
    rw [hci] at hne
    rw [clickCard_shape pre btn box hpre hbtn hbox, if_neg hne]

/-- One activation of the reveal control of a card of the shape: the card
keeps the shape, and it goes from hidden with `Show answer` to shown with
`Hide answer`, or back. -/
theorem clickCard_control (c : Card) (h : CardShape c) :
    CardShape (clickCard c (controlIndex c))
    ∧ ((cardHidden c = true ∧ cardLabel c = some "Show answer".toList
          ∧ cardHidden (clickCard c (controlIndex c)) = false
          ∧ cardLabel (clickCard c (controlIndex c)) = some "Hide answer".toList)
      ∨ (cardHidden c = false ∧ cardLabel c = some "Hide answer".toList
          ∧ cardHidden (clickCard c (controlIndex c)) = true
          ∧ cardLabel (clickCard c (controlIndex c)) = some "Show answer".toList)) := by
  obtain ⟨pre, btn, box, hd, hpre, hbtn, hbox, hst⟩ := h
  cases c with
  | mk ds =>
    simp only at hd
    subst hd
    have hci : controlIndex { descendants := pre ++ [btn, box] } = pre.length :=
      findIdx_button pre btn box hpre hbtn
    have hmt : box.classList.contains "mt-2".toList = true := by
      unfold isAnswerBox at hbox
      simp only [Bool.and_eq_true] at hbox
      exact hbox.2
    have htag : (box.tag == "div".toList) = true := by
      unfold isAnswerBox at hbox
      simp only [Bool.and_eq_true] at hbox
      exact hbox.1
    rw [hci, clickCard_shape pre btn box hpre hbtn hbox, if_pos rfl,
      cardHidden_shape pre btn box hpre hbtn hbox, cardLabel_shape pre btn box hpre hbtn]
    rcases hst with ⟨hh, hl⟩ | ⟨hh, hl⟩
    · rw [if_pos hh]
      have hbtn2 : isRevealButton { btn with content := "Hide answer".toList } = true := hbtn
      have hbox2 : isAnswerBox
          { box with classList := classListRemove "hidden".toList box.classList } = true := by
        unfold isAnswerBox
        simp only [Bool.and_eq_true]
        exact ⟨htag, contains_classListRemove_ne _ _ _ (by decide) hmt⟩
      rw [cardHidden_shape pre _ _ hpre hbtn2 hbox2, cardLabel_shape pre _ _ hpre hbtn2]
      refine ⟨⟨pre, _, _, rfl, hpre, hbtn2, hbox2,
        Or.inr ⟨contains_classListRemove_self _ _, rfl⟩⟩, Or.inl ⟨hh, by rw [hl], ?_, rfl⟩⟩
      exact contains_classListRemove_self _ _
    · have hh2 : ¬ (box.classList.contains "hidden".toList = true) := by
        rw [hh]; exact Bool.false_ne_true
      rw [if_neg hh2]
      have hbtn2 : isRevealButton { btn with content := "Show answer".toList } = true := hbtn
      have hbox2 : isAnswerBox
          { box with classList := classListAdd "hidden".toList box.classList } = true := by
        unfold isAnswerBox
        simp only [Bool.and_eq_true]
        exact ⟨htag, contains_classListAdd_ne _ _ _ hmt⟩
      rw [cardHidden_shape pre _ _ hpre hbtn2 hbox2, cardLabel_shape pre _ _ hpre hbtn2]
      refine ⟨⟨pre, _, _, rfl, hpre, hbtn2, hbox2,
        Or.inl ⟨contains_classListAdd_self _ _, rfl⟩⟩, Or.inr ⟨hh, by rw [hl], ?_, rfl⟩⟩
      exact contains_classListAdd_self _ _

theorem clickCard_keeps_shape (c : Card) (h : CardShape c) (ei : Nat) :
    CardShape (clickCard c ei) := by
  by_cases hne : ei = controlIndex c
  · rw [hne]
    exact (clickCard_control c h).1
  · rw [clickCard_other c h ei hne]
    exact h

/-! ## Reveal control: the page -/

theorem renderCardsFrom_mem (toUpperCase : Str → Str) (c : Card) :
    ∀ (qs : List Question) (idx : Nat), c ∈ renderCardsFrom toUpperCase idx qs →
      ∃ q i, c = renderCard toUpperCase q i := by
  intro qs
  induction qs with
  | nil => intro idx h; simp [renderCardsFrom] at h
  | cons q qs ih =>
    intro idx h
    simp only [renderCardsFrom, List.mem_cons] at h
    rcases h with h | h
    · exact ⟨q, idx, h⟩
    · exact ih (idx + 1) h

theorem renderCardsFrom_length (toUpperCase : Str → Str) :
    ∀ (qs : List Question) (idx : Nat), (renderCardsFrom toUpperCase idx qs).length = qs.length := by
  intro qs
  induction qs with
  | nil => intro idx; rfl
  | cons q qs ih => intro idx; simp [renderCardsFrom, ih]

theorem renderCards_shape (toUpperCase : Str → Str) (qs : List Question) :
    ShapeAt (renderQuestions toUpperCase qs).cards := by
  intro i c hc
  obtain ⟨q, j, hq⟩ := renderCardsFrom_mem toUpperCase c qs 0 (List.getElem?_mem hc)
  rw [hq]
  exact renderCard_shape toUpperCase q j

theorem click_shape (cards : List Card) (h : ShapeAt cards) (ci ei : Nat) :
    ShapeAt (click cards ci ei) := by
  intro i c hc
  unfold click at hc
  rw [List.getElem?_modify] at hc
  cases hget : cards[i]? with
  | none => rw [hget] at hc; simp at hc
  | some c0 =>
    rw [hget] at hc
    simp only [Option.map_eq_map, Option.map_some', Option.some.injEq] at hc
    have h0 := h i c0 hget
    by_cases hci : ci = i
    · rw [if_pos hci] at hc
      rw [← hc]
      exact clickCard_keeps_shape c0 h0 ei
    · rw [if_neg hci] at hc
      rw [← hc]
      exact h0

theorem click_length (cards : List Card) (ci ei : Nat) :
    (click cards ci ei).length = cards.length := by
  simp [click]

theorem runClicks_shape (clicks : List (Nat × Nat)) :
    ∀ cards : List Card, ShapeAt cards → ShapeAt (runClicks cards clicks) := by
  induction clicks with
  | nil => intro cards h; exact h
  | cons t clicks ih =>
    intro cards h
    exact ih (click cards t.1 t.2) (click_shape cards h t.1 t.2)

theorem runClicks_length (clicks : List (Nat × Nat)) :
    ∀ cards : List Card, (runClicks cards clicks).length = cards.length := by
  induction clicks with
  | nil => intro cards; rfl
  | cons t clicks ih =>
    intro cards
    exact (ih (click cards t.1 t.2)).trans (click_length cards t.1 t.2)

theorem activate_getElem (cards : List Card) (i : Nat) (c : Card) (hc : cards[i]? = some c) :
    (activate cards i)[i]? = some (clickCard c (controlIndex c)) := by
  simp [activate, click, hc]

theorem activate_getElem_ne (cards : List Card) (i j : Nat) (hne : j ≠ i) :
    (activate cards i)[j]? = cards[j]? := by
  unfold activate click
  exact List.getElem?_modify_ne _ _ (fun h => hne h.symm)

theorem activate_shape (cards : List Card) (h : ShapeAt cards) (i : Nat) :
    ShapeAt (activate cards i) :=
  click_shape cards h i _

/-- Two activations of a hidden card bring it back to hidden. -/
theorem activate_twice (cards : List Card) (h : ShapeAt cards) (i : Nat) (c : Card)
    (hc : cards[i]? = some c)
    (hh : cardHidden c = true ∧ cardLabel c = some "Show answer".toList) :
    ∃ c2, (activate (activate cards i) i)[i]? = some c2
      ∧ cardHidden c2 = true ∧ cardLabel c2 = some "Show answer".toList := by
  have hs := h i c hc
  obtain ⟨hs1, hflip1⟩ := clickCard_control c hs
  obtain ⟨_, hflip2⟩ := clickCard_control _ hs1
  refine ⟨_, activate_getElem _ i _ (activate_getElem cards i c hc), ?_⟩
  rcases hflip1 with ⟨_, _, h1, _⟩ | ⟨h1, _⟩
  · rcases hflip2 with ⟨h2, _⟩ | ⟨_, _, h3, h4⟩
    · rw [h1] at h2
      exact absurd h2 Bool.false_ne_true
    · exact ⟨h3, h4⟩
  · rw [hh.1] at h1
    exact absurd h1.symm Bool.false_ne_true

theorem iterate_activate_even (cards : List Card) (h : ShapeAt cards) (i : Nat) (c : Card)
    (hc : cards[i]? = some c)
    (hh : cardHidden c = true ∧ cardLabel c = some "Show answer".toList) (n : Nat) :
    ShapeAt ((fun cs => activate cs i)^[2 * n] cards)
    ∧ ∃ c2, ((fun cs => activate cs i)^[2 * n] cards)[i]? = some c2
      ∧ cardHidden c2 = true ∧ cardLabel c2 = some "Show answer".toList := by
  induction n with
  | zero => exact ⟨h, c, hc, hh⟩
  | succ n ih =>
    obtain ⟨hsh, c1, hc1, hh1⟩ := ih
    have hstep : (fun cs => activate cs i)^[2 * (n + 1)] cards
        = activate (activate ((fun cs => activate cs i)^[2 * n] cards) i) i := by
      rw [show 2 * (n + 1) = (2 * n + 1) + 1 by ring, Function.iterate_succ_apply',
        Function.iterate_succ_apply']
    rw [hstep]
    exact ⟨activate_shape _ (activate_shape _ hsh i) i, activate_twice _ hsh i c1 hc1 hh1⟩

/-- C9. On the cards that `renderQuestions` builds: every card starts hidden
with the label `Show answer`; on any page reached from them by clicks, one
activation of the control of a card takes that card from hidden with
`Show answer` to shown with `Hide answer`, or from shown with `Hide answer` to
hidden with `Show answer`, and leaves every other card as it is; after any even
number of activations of a card from the start, that card is hidden with the
label `Show answer`. -/
theorem reveal_state_machine (toUpperCase : Str → Str) (qs : List Question) :
    (∀ c ∈ (renderQuestions toUpperCase qs).cards,
      cardHidden c = true ∧ cardLabel c = some "Show answer".toList)
    ∧ (∀ (clicks : List (Nat × Nat)) (i : Nat), i < qs.length →
        ∃ c c2, (runClicks (renderQuestions toUpperCase qs).cards clicks)[i]? = some c
          ∧ (activate (runClicks (renderQuestions toUpperCase qs).cards clicks) i)[i]? = some c2
          ∧ ((cardHidden c = true ∧ cardLabel c = some "Show answer".toList
                ∧ cardHidden c2 = false ∧ cardLabel c2 = some "Hide answer".toList)
            ∨ (cardHidden c = false ∧ cardLabel c = some "Hide answer".toList
                ∧ cardHidden c2 = true ∧ cardLabel c2 = some "Show answer".toList))
          ∧ ∀ j, j ≠ i →
              (activate (runClicks (renderQuestions toUpperCase qs).cards clicks) i)[j]?
                = (runClicks (renderQuestions toUpperCase qs).cards clicks)[j]?)
    ∧ (∀ (i n : Nat), i < qs.length →
        ∃ c, ((fun cs => activate cs i)^[2 * n] (renderQuestions toUpperCase qs).cards)[i]?
            = some c
          ∧ cardHidden c = true ∧ cardLabel c = some "Show answer".toList) := by
  have hlen : (renderQuestions toUpperCase qs).cards.length = qs.length :=
    renderCardsFrom_length toUpperCase qs 0
  have hinit : ∀ c ∈ (renderQuestions toUpperCase qs).cards,
      cardHidden c = true ∧ cardLabel c = some "Show answer".toList := by
    intro c hc
    obtain ⟨q, j, hq⟩ := renderCardsFrom_mem toUpperCase c qs 0 hc
    rw [hq]
    exact renderCard_hidden toUpperCase q j
  refine ⟨hinit, ?_, ?_⟩
  · intro clicks i hi
    have hsh := runClicks_shape clicks _ (renderCards_shape toUpperCase qs)
    have hlt : i < (runClicks (renderQuestions toUpperCase qs).cards clicks).length := by
      rw [runClicks_length, hlen]; exact hi
    have hc := List.getElem?_eq_getElem hlt
    refine ⟨_, _, hc, activate_getElem _ i _ hc, (clickCard_control _ (hsh i _ hc)).2, ?_⟩
    intro j hj
    exact activate_getElem_ne _ i j hj
  · intro i n hi
    have hlt : i < (renderQuestions toUpperCase qs).cards.length := by
      rw [hlen]; exact hi
    have hc := List.getElem?_eq_getElem hlt
    exact (iterate_activate_even _ (renderCards_shape toUpperCase qs) i _ hc
      (hinit _ (List.getElem_mem hlt)) n).2

theorem reveal_state_machine_witness :
    0 < (normalize sampleData).length
    ∧ ∃ c, ((fun cs => activate cs 0)^[2 * 1]
          (renderQuestions asciiUpper (normalize sampleData)).cards)[0]? = some c
        ∧ cardHidden c = true ∧ cardLabel c = some "Show answer".toList :=
  ⟨by decide, (reveal_state_machine asciiUpper (normalize sampleData)).2.2 0 1 (by decide)⟩

end Quiz
